import Mathlib

/-!
Verification of the checksum-verified configuration state model of the
`beamer` repository (`beamer/config/state.py`).

The development shallowly embeds the Python code:

* machine integers are `Nat`/`Int` with explicit `% 2^w` where overflow
  matters;
* JSON values parsed by `json.load` are the inductive `PyVal`;
* `json.dumps(data, indent=4)` is embedded by shape-specific renderers
  that follow CPython's `json` encoder for the shapes the program
  serializes (objects, string/int keys, strings, integers, arrays);
* `hashlib.sha256` is a full executable SHA-256 over byte lists;
* `eth_utils.is_checksum_address` is embedded with a full executable
  Keccak-256 (EIP-55);
* `apischema` (de)serialization is embedded by explicit per-dataclass
  functions that follow the declared field metadata (aliases, `min`,
  `max`), aggregate all findings, and run the declared validators;
* Python `dict`s become association lists in insertion order, Python
  `set`s become insertion-ordered duplicate-free lists.
-/

set_option maxRecDepth 10000

namespace Beamer

/-! ## Decimal and hexadecimal digits -/

/-- Decimal digit character, for `n < 10`. -/
def digitChar (n : Nat) : Char := Char.ofNat (48 + n)

/-- Fueled decimal rendering of a natural number, most significant digit
first; `natToDec` instantiates the fuel. -/
def natToDecF : Nat → Nat → List Char
  | 0, _ => []
  | f + 1, n => if n < 10 then [digitChar n] else natToDecF f (n / 10) ++ [digitChar (n % 10)]

/-- Decimal rendering of a natural number (as `repr(int)` in Python). -/
def natToDec (n : Nat) : List Char := natToDecF (n + 1) n

/-- Decimal rendering of an integer (as `repr(int)` in Python). -/
def intToDec (i : Int) : List Char :=
  if i < 0 then '-' :: natToDec i.natAbs else natToDec i.natAbs

/-- Lowercase hexadecimal digit character, for `n < 16`. -/
def hexDigitChar (n : Nat) : Char :=
  if n < 10 then Char.ofNat (48 + n) else Char.ofNat (87 + n)

/-- Two lowercase hex characters of a byte (as `bytes.hex()` in Python). -/
def hexByte (b : Nat) : List Char := [hexDigitChar (b / 16 % 16), hexDigitChar (b % 16)]

/-- Lowercase hex string of a byte sequence (as `bytes.hex()` in Python). -/
def hexOfBytes (bs : List Nat) : String := ⟨(bs.map hexByte).flatten⟩

/-! ## UTF-8 encoding (`str.encode("utf-8")`) -/

/-- UTF-8 bytes of one Unicode scalar value. -/
def utf8Char (n : Nat) : List Nat :=
  if n < 0x80 then [n]
  else if n < 0x800 then [0xC0 ||| (n >>> 6), 0x80 ||| (n &&& 0x3F)]
  else if n < 0x10000 then
    [0xE0 ||| (n >>> 12), 0x80 ||| ((n >>> 6) &&& 0x3F), 0x80 ||| (n &&& 0x3F)]
  else
    [0xF0 ||| (n >>> 18), 0x80 ||| ((n >>> 12) &&& 0x3F),
     0x80 ||| ((n >>> 6) &&& 0x3F), 0x80 ||| (n &&& 0x3F)]

/-- UTF-8 encoding of a character list. -/
def utf8Enc (cs : List Char) : List Nat := (cs.map (fun c => utf8Char c.toNat)).flatten

/-- UTF-8 encoding of a string. -/
def utf8EncStr (s : String) : List Nat := utf8Enc s.data

/-! ## SHA-256 (`hashlib.sha256`), on byte lists, word arithmetic in `Nat` mod `2^32` -/

/-- `2^32`. -/
def M32 : Nat := 4294967296

/-- Addition modulo `2^32`. -/
def add32 (a b : Nat) : Nat := (a + b) % M32

/-- Right rotation of a 32-bit word. -/
def rotr32 (n x : Nat) : Nat := ((x >>> n) ||| (x <<< (32 - n))) % M32

/-- SHA-256 big sigma 0. -/
def bsig0 (x : Nat) : Nat := rotr32 2 x ^^^ rotr32 13 x ^^^ rotr32 22 x

/-- SHA-256 big sigma 1. -/
def bsig1 (x : Nat) : Nat := rotr32 6 x ^^^ rotr32 11 x ^^^ rotr32 25 x

/-- SHA-256 small sigma 0. -/
def ssig0 (x : Nat) : Nat := rotr32 7 x ^^^ rotr32 18 x ^^^ (x >>> 3)

/-- SHA-256 small sigma 1. -/
def ssig1 (x : Nat) : Nat := rotr32 17 x ^^^ rotr32 19 x ^^^ (x >>> 10)

/-- SHA-256 choice function. -/
def sha256Ch (e f g : Nat) : Nat := (e &&& f) ^^^ ((e ^^^ 4294967295) &&& g)

/-- SHA-256 majority function. -/
def sha256Maj (a b c : Nat) : Nat := (a &&& b) ^^^ (a &&& c) ^^^ (b &&& c)

/-- The 64 SHA-256 round constants. -/
def sha256K : List Nat :=
  [1116352408, 1899447441, 3049323471, 3921009573, 961987163, 1508970993,
   2453635748, 2870763221, 3624381080, 310598401, 607225278, 1426881987,
   1925078388, 2162078206, 2614888103, 3248222580, 3835390401, 4022224774,
   264347078, 604807628, 770255983, 1249150122, 1555081692, 1996064986,
   2554220882, 2821834349, 2952996808, 3210313671, 3336571891, 3584528711,
   113926993, 338241895, 666307205, 773529912, 1294757372, 1396182291,
   1695183700, 1986661051, 2177026350, 2456956037, 2730485921, 2820302411,
   3259730800, 3345764771, 3516065817, 3600352804, 4094571909, 275423344,
   430227734, 506948616, 659060556, 883997877, 958139571, 1322822218,
   1537002063, 1747873779, 1955562222, 2024104815, 2227730452, 2361852424,
   2428436474, 2756734187, 3204031479, 3329325298]

/-- SHA-256 working state: eight 32-bit words. -/
structure Sha256State where
  a : Nat
  b : Nat
  c : Nat
  d : Nat
  e : Nat
  f : Nat
  g : Nat
  h : Nat
deriving DecidableEq

/-- SHA-256 initial hash value. -/
def sha256H0 : Sha256State :=
  ⟨1779033703, 3144134277, 1013904242, 2773480762,
   1359893119, 2600822924, 528734635, 1541459225⟩

/-- Big-endian byte rendering of `n` on `k` bytes. -/
def beBytes : Nat → Nat → List Nat
  | 0, _ => []
  | k + 1, n => beBytes k (n >>> 8) ++ [n &&& 255]

/-- SHA-256 padding: append `0x80`, zeros, and the 64-bit bit length. -/
def sha256Pad (msg : List Nat) : List Nat :=
  let L := msg.length
  msg ++ 0x80 :: List.replicate ((119 - L % 64) % 64) 0 ++ beBytes 8 (8 * L)

/-- Split a byte list into chunks of 64 (fueled; the fuel is the length). -/
def chunk64F : Nat → List Nat → List (List Nat)
  | 0, _ => []
  | _ + 1, [] => []
  | f + 1, b :: rest => (b :: rest).take 64 :: chunk64F f ((b :: rest).drop 64)

/-- Big-endian 32-bit words of a byte list. -/
def wordsOf : List Nat → List Nat
  | b0 :: b1 :: b2 :: b3 :: rest =>
    ((((b0 <<< 8) ||| b1) <<< 8 ||| b2) <<< 8 ||| b3) :: wordsOf rest
  | _ => []

/-- Extend the 16-word message schedule by `f` further words. -/
def schedExt : Nat → List Nat → List Nat
  | 0, w => w
  | f + 1, w =>
    let t := w.length
    schedExt f (w ++ [add32 (add32 (ssig1 (w.getD (t - 2) 0)) (w.getD (t - 7) 0))
                      (add32 (ssig0 (w.getD (t - 15) 0)) (w.getD (t - 16) 0))])

/-- One SHA-256 round. -/
def sha256Round (w : List Nat) (st : Sha256State) (t : Nat) : Sha256State :=
  let t1 := add32 (add32 (add32 st.h (bsig1 st.e)) (sha256Ch st.e st.f st.g))
                  (add32 (sha256K.getD t 0) (w.getD t 0))
  let t2 := add32 (bsig0 st.a) (sha256Maj st.a st.b st.c)
  ⟨add32 t1 t2, st.a, st.b, st.c, add32 st.d t1, st.e, st.f, st.g⟩

/-- SHA-256 compression of one 64-byte block into the running hash. -/
def sha256Block (h : Sha256State) (block : List Nat) : Sha256State :=
  let w := schedExt 48 (wordsOf block)
  let st := (List.range 64).foldl (sha256Round w) h
  ⟨add32 h.a st.a, add32 h.b st.b, add32 h.c st.c, add32 h.d st.d,
   add32 h.e st.e, add32 h.f st.f, add32 h.g st.g, add32 h.h st.h⟩

/-- SHA-256 digest (32 bytes) of a byte list. -/
def sha256 (msg : List Nat) : List Nat :=
  let padded := sha256Pad msg
  let fin := (chunk64F padded.length padded).foldl sha256Block sha256H0
  ([fin.a, fin.b, fin.c, fin.d, fin.e, fin.f, fin.g, fin.h].map (beBytes 4)).flatten

/-- Lowercase-hex SHA-256 digest of a byte list
(`hashlib.sha256(bs).digest().hex()`). -/
def sha256Hex (msg : List Nat) : String := hexOfBytes (sha256 msg)

/-! ## Keccak-256 (`eth_utils.keccak`), lanes in `Nat` mod `2^64` -/

/-- `2^64`. -/
def M64 : Nat := 18446744073709551616

/-- Left rotation of a 64-bit lane. -/
def rotl64 (n x : Nat) : Nat := ((x <<< (n % 64)) ||| (x >>> (64 - n % 64))) % M64

/-- Keccak rotation offsets, indexed by lane `x + 5 * y`. -/
def keccakRotOff : List Nat :=
  List.flatten
    [[0, 1, 62, 28, 27],
     [36, 44, 6, 55, 20],
     [3, 10, 43, 25, 39],
     [41, 45, 15, 21, 8],
     [18, 2, 61, 56, 14]]

/-- The 24 Keccak round constants. -/
def keccakRC : List Nat :=
  [1, 32898, 9223372036854808714, 9223372039002292224,
   32907, 2147483649, 9223372039002292353, 9223372036854808585,
   138, 136, 2147516425, 2147483658,
   2147516555, 9223372036854775947, 9223372036854808713, 9223372036854808579,
   9223372036854808578, 9223372036854775936, 32778, 9223372039002259466,
   9223372039002292353, 9223372036854808704, 2147483649, 9223372039002292232]

/-- Keccak theta step. -/
def keccakTheta (A : List Nat) : List Nat :=
  let C := (List.range 5).map fun x =>
    A.getD x 0 ^^^ A.getD (x + 5) 0 ^^^ A.getD (x + 10) 0 ^^^ A.getD (x + 15) 0 ^^^
      A.getD (x + 20) 0
  let D := (List.range 5).map fun x =>
    C.getD ((x + 4) % 5) 0 ^^^ rotl64 1 (C.getD ((x + 1) % 5) 0)
  (List.range 25).map fun i => A.getD i 0 ^^^ D.getD (i % 5) 0

/-- Keccak rho and pi steps. -/
def keccakRhoPi (A : List Nat) : List Nat :=
  (List.range 25).map fun j =>
    let X := j % 5
    let Y := j / 5
    let src := (X + 3 * Y) % 5 + 5 * X
    rotl64 (keccakRotOff.getD src 0) (A.getD src 0)

/-- Keccak chi step. -/
def keccakChi (B : List Nat) : List Nat :=
  (List.range 25).map fun j =>
    let x := j % 5
    let y := j / 5
    B.getD j 0 ^^^
      ((B.getD ((x + 1) % 5 + 5 * y) 0 ^^^ 18446744073709551615) &&&
        B.getD ((x + 2) % 5 + 5 * y) 0)

/-- One Keccak-f round with the given round constant. -/
def keccakRound (A : List Nat) (rc : Nat) : List Nat :=
  let B := keccakChi (keccakRhoPi (keccakTheta A))
  (B.getD 0 0 ^^^ rc) :: B.drop 1

/-- The Keccak-f[1600] permutation (24 rounds). -/
def keccakF (A : List Nat) : List Nat := keccakRC.foldl keccakRound A

/-- Little-endian 64-bit value of (up to 8) bytes. -/
def leVal : List Nat → Nat
  | [] => 0
  | b :: r => b + 256 * leVal r

/-- Little-endian byte rendering of `n` on `k` bytes. -/
def leBytes : Nat → Nat → List Nat
  | 0, _ => []
  | k + 1, n => (n &&& 255) :: leBytes k (n >>> 8)

/-- Keccak multi-rate padding to a multiple of 136 bytes (domain byte
`0x01`, final bit `0x80`). -/
def keccakPad (msg : List Nat) : List Nat :=
  let q := 136 - msg.length % 136
  if q = 1 then msg ++ [0x81]
  else msg ++ 0x01 :: List.replicate (q - 2) 0 ++ [0x80]

/-- Split a byte list into chunks of 136 (fueled; the fuel is the length). -/
def chunk136F : Nat → List Nat → List (List Nat)
  | 0, _ => []
  | _ + 1, [] => []
  | f + 1, b :: rest => (b :: rest).take 136 :: chunk136F f ((b :: rest).drop 136)

/-- Absorb one 136-byte block into the Keccak state and permute. -/
def keccakAbsorb (A : List Nat) (block : List Nat) : List Nat :=
  keccakF ((List.range 25).map fun i =>
    A.getD i 0 ^^^ (if i < 17 then leVal ((block.drop (8 * i)).take 8) else 0))

/-- Keccak-256 digest (32 bytes) of a byte list. -/
def keccak256 (msg : List Nat) : List Nat :=
  let padded := keccakPad msg
  let fin := (chunk136F padded.length padded).foldl keccakAbsorb (List.replicate 25 0)
  ([fin.getD 0 0, fin.getD 1 0, fin.getD 2 0, fin.getD 3 0].map (leBytes 8)).flatten

/-- Known-answer test: Keccak-256 of the empty message. -/
theorem keccak256_empty :
    hexOfBytes (keccak256 []) =
      "c5d2460186f7233c927e7db2dcc703c0e500b653ca82273b7bfad8045d85a470" := by
  decide

/-- Known-answer test: SHA-256 of the empty message. -/
theorem sha256_empty :
    sha256Hex [] = "e3b0c44298fc1c149afbf4c8996fb92427ae41e4649b934ca495991b7852b855" := by
  decide

/-- Known-answer test: SHA-256 of `"abc"`. -/
theorem sha256_abc :
    sha256Hex (utf8EncStr "abc") =
      "ba7816bf8f01cfea414140de5dae2223b00361a396177a9cb410ff61f20015ad" := by
  decide

/-! ## Data model (the dataclasses of `beamer/config/state.py`)

Python `dict`s become association lists in insertion order; Python `set`s
become insertion-ordered duplicate-free lists (the emission order the
serializer observes). All integers are unbounded `Int`, as in Python. -/

/-- `TokenConfig`: `transfer_limit` and `eth_in_token`. -/
structure TokenConfig where
  transfer_limit : Int
  eth_in_token : Int
deriving DecidableEq

/-- `ChainConfig`: `finality_period`, `target_weight_ppm`, `transfer_cost`. -/
structure ChainConfig where
  finality_period : Int
  target_weight_ppm : Int
  transfer_cost : Int
deriving DecidableEq

/-- `FillManagerConfig`: a whitelist of addresses. -/
structure FillManagerConfig where
  whitelist : List String
deriving DecidableEq

/-- `RequestManagerConfig`: fee fields, `chains`, `tokens`, `whitelist`. -/
structure RequestManagerConfig where
  min_fee_ppm : Int
  lp_fee_ppm : Int
  protocol_fee_ppm : Int
  chains : List (Int × ChainConfig)
  tokens : List (String × TokenConfig)
  whitelist : List String
deriving DecidableEq

/-- `Configuration`: the aggregate root. -/
structure Configuration where
  block : Int
  chain_id : Int
  token_addresses : List (String × String)
  request_manager : RequestManagerConfig
  fill_manager : FillManagerConfig
deriving DecidableEq

/-- `Configuration.initial`: fresh configuration with empty maps and sets. -/
def Configuration.initial (chain_id block : Int) : Configuration :=
  { block := block
    chain_id := chain_id
    token_addresses := []
    request_manager :=
      { min_fee_ppm := 0, lp_fee_ppm := 0, protocol_fee_ppm := 0
        chains := [], tokens := [], whitelist := [] }
    fill_manager := { whitelist := [] } }

/-! ## `eth_utils` address predicates (EIP-55) -/

/-- Hexadecimal digit characters (either case). -/
def isHexDigitChar (c : Char) : Bool :=
  ('0' ≤ c && c ≤ '9') || ('a' ≤ c && c ≤ 'f') || ('A' ≤ c && c ≤ 'F')

/-- `eth_utils.remove_0x_prefix`. -/
def remove0x : List Char → List Char
  | '0' :: 'x' :: r => r
  | '0' :: 'X' :: r => r
  | s => s

/-- `eth_utils.is_hex_address`: a hex string of 40 hex digits after an
optional `0x`/`0X`. -/
def is_hex_address (s : String) : Bool :=
  let u := remove0x s.data
  u.length == 40 && u.all isHexDigitChar

/-- Nibble `i` (big-endian order) of a byte list. -/
def nibbleAt (bs : List Nat) (i : Nat) : Nat :=
  if i % 2 == 0 then bs.getD (i / 2) 0 >>> 4 else bs.getD (i / 2) 0 &&& 15

/-- `eth_utils.to_checksum_address` on a well-formed hex address: lowercase
the 40 hex digits, Keccak-256 them as ASCII text, and uppercase each letter
whose corresponding hash nibble is at least 8. -/
def to_checksum_address (s : String) : String :=
  let u := (remove0x s.data).map Char.toLower
  let hash := keccak256 (utf8Enc u)
  ⟨'0' :: 'x' :: (List.range 40).map fun i =>
    let c := u.getD i ' '
    if nibbleAt hash i < 8 then c else c.toUpper⟩

/-- `eth_utils.is_checksum_address`. -/
def is_checksum_address (s : String) : Bool :=
  if is_hex_address s then s == to_checksum_address s else false

/-- Known-answer test: the EIP-55 example address is checksummed. -/
theorem is_checksum_address_eip55_example :
    is_checksum_address "0x5aAeb6053F3E94C9b9A09f33669435E7Ef1BeAed" = true := by
  decide

/-- Known-answer test: the all-lowercase form of the EIP-55 example address
is not checksummed. -/
theorem is_checksum_address_lowercase_example :
    is_checksum_address "0x5aaeb6053f3e94c9b9a09f33669435e7ef1beaed" = false := by
  decide

/-! ## Validators (`@validator` methods of `Configuration`)

A finding is an error location (a path of JSON keys) together with a
message, as yielded by the generators in the source. -/

/-- One validation finding: `(location path, message)`. -/
abbrev Finding := List String × String

/-- `Configuration._check_token_addresses`: yield a finding for every
`token_addresses` entry that is not a checksummed address. -/
def Configuration._check_token_addresses (c : Configuration) : List Finding :=
  c.token_addresses.flatMap fun p =>
    if is_checksum_address p.2 then []
    else [(["token_addresses", p.1], "expected a checksum address: " ++ p.2)]

/-- `Configuration._check_tokens`: yield a finding for every
`request_manager.tokens` symbol missing from `token_addresses`. -/
def Configuration._check_tokens (c : Configuration) : List Finding :=
  c.request_manager.tokens.flatMap fun p =>
    if c.token_addresses.any fun q => q.1 == p.1 then []
    else [(["token_addresses"], "missing address for token " ++ p.1)]

/-- All findings of both validators, in declaration order; neither check
short-circuits the other. -/
def Configuration.validationFindings (c : Configuration) : List Finding :=
  c._check_token_addresses ++ c._check_tokens

/-! ## `json.dumps(data, indent=4)` rendering

The renderers below embed CPython's `json` encoder with `indent=4` (and
default separators `(",", ": ")` and `ensure_ascii=True`), specialized to
the shapes `apischema.serialize` produces for a `Configuration`: objects
with string or integer keys, strings, unbounded integers, and arrays of
strings. Integer keys are rendered in decimal and quoted, as the encoder
does for `dict[int, ...]`. -/

/-- Left brace character. -/
def lbrace : Char := Char.ofNat 123

/-- Right brace character. -/
def rbrace : Char := Char.ofNat 125

/-- `n` spaces. -/
def sp (n : Nat) : List Char := List.replicate n ' '

/-- Four lowercase hex characters of `n < 0x10000` (Python's `\u%04x`). -/
def hex4 (n : Nat) : List Char :=
  [hexDigitChar (n / 4096 % 16), hexDigitChar (n / 256 % 16),
   hexDigitChar (n / 16 % 16), hexDigitChar (n % 16)]

/-- JSON escaping of one character, per CPython's `ensure_ascii` encoder:
shortcut escapes, `\uXXXX` for other control and non-ASCII characters,
surrogate pairs for astral characters. -/
def escChar (c : Char) : List Char :=
  if c = '"' then ['\\', '"']
  else if c = '\\' then ['\\', '\\']
  else if c = '\n' then ['\\', 'n']
  else if c = '\r' then ['\\', 'r']
  else if c = '\t' then ['\\', 't']
  else if c.toNat == 8 then ['\\', 'b']
  else if c.toNat == 12 then ['\\', 'f']
  else if c.toNat < 0x20 then '\\' :: 'u' :: hex4 c.toNat
  else if c.toNat ≤ 0x7e then [c]
  else if c.toNat < 0x10000 then '\\' :: 'u' :: hex4 c.toNat
  else
    '\\' :: 'u' :: hex4 (0xD800 + (c.toNat - 0x10000) / 0x400) ++
      '\\' :: 'u' :: hex4 (0xDC00 + (c.toNat - 0x10000) % 0x400)

/-- A JSON string literal for `s` (quotes plus escaped body). -/
def jsonQuote (s : String) : List Char := '"' :: s.data.flatMap escChar ++ ['"']

/-- Join chunks with a separator. -/
def joinSep (sep : List Char) : List (List Char) → List Char
  | [] => []
  | [x] => x
  | x :: y :: rest => x ++ sep ++ joinSep sep (y :: rest)

/-- Render a JSON object at indentation depth `d` from already-rendered
`(key, value)` entries: `"{}"` when empty, otherwise one entry per line,
each indented by `4 * (d + 1)` spaces, separated by `",\n"`, closed by a
brace indented by `4 * d` spaces. -/
def renderObjEntries (d : Nat) (entries : List (List Char × List Char)) : List Char :=
  match entries with
  | [] => [lbrace, rbrace]
  | _ =>
    lbrace :: '\n' ::
      (joinSep [',', '\n'] (entries.map fun e => sp (4 * (d + 1)) ++ e.1 ++ ':' :: ' ' :: e.2) ++
        '\n' :: sp (4 * d) ++ [rbrace])

/-- Render a JSON array at indentation depth `d` from rendered elements. -/
def renderArrElems (d : Nat) (elems : List (List Char)) : List Char :=
  match elems with
  | [] => ['[', ']']
  | _ =>
    '[' :: '\n' ::
      (joinSep [',', '\n'] (elems.map fun e => sp (4 * (d + 1)) ++ e) ++
        '\n' :: sp (4 * d) ++ [']'])

/-- Serialized `TokenConfig` (field declaration order). -/
def renderTokenConfig (d : Nat) (t : TokenConfig) : List Char :=
  renderObjEntries d
    [(jsonQuote "transfer_limit", intToDec t.transfer_limit),
     (jsonQuote "eth_in_token", intToDec t.eth_in_token)]

/-- Serialized `ChainConfig` (field declaration order). -/
def renderChainConfig (d : Nat) (cc : ChainConfig) : List Char :=
  renderObjEntries d
    [(jsonQuote "finality_period", intToDec cc.finality_period),
     (jsonQuote "target_weight_ppm", intToDec cc.target_weight_ppm),
     (jsonQuote "transfer_cost", intToDec cc.transfer_cost)]

/-- Serialized string-to-string mapping (`token_addresses`). -/
def renderStrDict (d : Nat) (l : List (String × String)) : List Char :=
  renderObjEntries d (l.map fun p => (jsonQuote p.1, jsonQuote p.2))

/-- Serialized list of strings (a whitelist set, in emission order). -/
def renderStrList (d : Nat) (xs : List String) : List Char :=
  renderArrElems d (xs.map jsonQuote)

/-- Serialized `tokens` mapping. -/
def renderTokensDict (d : Nat) (l : List (String × TokenConfig)) : List Char :=
  renderObjEntries d (l.map fun p => (jsonQuote p.1, renderTokenConfig (d + 1) p.2))

/-- Serialized `chains` mapping; the integer keys are quoted decimals, as
`json.dumps` renders `int` dictionary keys. -/
def renderChainsDict (d : Nat) (l : List (Int × ChainConfig)) : List Char :=
  renderObjEntries d (l.map fun p => ('"' :: intToDec p.1 ++ ['"'], renderChainConfig (d + 1) p.2))

/-- Serialized `RequestManagerConfig` (field declaration order). -/
def renderRequestManager (d : Nat) (rm : RequestManagerConfig) : List Char :=
  renderObjEntries d
    [(jsonQuote "min_fee_ppm", intToDec rm.min_fee_ppm),
     (jsonQuote "lp_fee_ppm", intToDec rm.lp_fee_ppm),
     (jsonQuote "protocol_fee_ppm", intToDec rm.protocol_fee_ppm),
     (jsonQuote "chains", renderChainsDict (d + 1) rm.chains),
     (jsonQuote "tokens", renderTokensDict (d + 1) rm.tokens),
     (jsonQuote "whitelist", renderStrList (d + 1) rm.whitelist)]

/-- Serialized `FillManagerConfig`. -/
def renderFillManager (d : Nat) (fm : FillManagerConfig) : List Char :=
  renderObjEntries d [(jsonQuote "whitelist", renderStrList (d + 1) fm.whitelist)]

/-- The five serialized top-level entries of `apischema.serialize(self)`:
declared external names, the two manager sub-objects under their
capitalized aliases. -/
def Configuration.serializedEntries (c : Configuration) : List (List Char × List Char) :=
  [(jsonQuote "block", intToDec c.block),
   (jsonQuote "chain_id", intToDec c.chain_id),
   (jsonQuote "token_addresses", renderStrDict 1 c.token_addresses),
   (jsonQuote "RequestManager", renderRequestManager 1 c.request_manager),
   (jsonQuote "FillManager", renderFillManager 1 c.fill_manager)]

/-- `json.dumps(apischema.serialize(self), indent=4)`. -/
def Configuration.serializedText (c : Configuration) : List Char :=
  renderObjEntries 0 c.serializedEntries

/-- `Configuration.compute_checksum`: the lowercase-hex SHA-256 digest of
the UTF-8 bytes of the serialized JSON text plus one trailing newline. -/
def Configuration.compute_checksum (c : Configuration) : String :=
  sha256Hex (utf8Enc (c.serializedText ++ ['\n']))

/-- The text `Configuration.to_file` writes: the same rendering with the
checksum inserted as the first key, and no trailing newline
(`json.dump(data, f, indent=4)`). -/
def Configuration.to_file_text (c : Configuration) : List Char :=
  renderObjEntries 0 ((jsonQuote "checksum", jsonQuote c.compute_checksum) :: c.serializedEntries)

/-! ## Parsed JSON values (`json.load` output)

`PyVal` is the Python value a loaded JSON document becomes. Object keys
are `PyKey` because the chain-ID normalization step in
`Configuration.from_file` replaces string keys with integers before
`apischema.deserialize` runs. Non-integer JSON numbers are carried as
opaque lexemes (`float`): the configuration schema has no float field, so
they are rejected during deserialization either way. -/

/-- A Python dictionary key of a (possibly key-normalized) JSON object. -/
inductive PyKey where
  | str (s : String)
  | int (i : Int)
deriving DecidableEq

/-- A Python value produced by `json.load` (after optional key
normalization). -/
inductive PyVal where
  | null
  | bool (b : Bool)
  | int (i : Int)
  | float (lexeme : String)
  | str (s : String)
  | list (xs : List PyVal)
  | obj (kvs : List (PyKey × PyVal))

/-- Dictionary lookup (`d[k]` / `d.get(k)`). -/
def lookupKey : List (PyKey × PyVal) → PyKey → Option PyVal
  | [], _ => none
  | (k', v') :: rest, k => if k' = k then some v' else lookupKey rest k

/-- Dictionary assignment `d[k] = v`: replace the value in place if the key
exists, else append. -/
def setKey : List (PyKey × PyVal) → PyKey → PyVal → List (PyKey × PyVal)
  | [], k, v => [(k, v)]
  | (k', v') :: rest, k, v => if k' = k then (k, v) :: rest else (k', v') :: setKey rest k v

/-- Dictionary removal `d.pop(k)` (the key's first occurrence). -/
def eraseKey : List (PyKey × PyVal) → PyKey → List (PyKey × PyVal)
  | [], _ => []
  | (k', v') :: rest, k => if k' = k then rest else (k', v') :: eraseKey rest k

/-! ## JSON parsing (`json.loads`)

A recursive-descent parser over character lists following the JSON grammar
accepted by CPython's `json.loads` (strict mode): arbitrary whitespace
between tokens, string escapes with surrogate-pair recombination, numbers
without leading zeros, `NaN`/`Infinity` constants. Nesting recursion is
fueled; all other loops are structural. One modeling restriction: escape
sequences denoting lone UTF-16 surrogates (which CPython lets through as
unpaired surrogate code points) are rejected, since Lean strings hold only
Unicode scalar values; no configuration content involves them. -/

/-- JSON whitespace. -/
def isWsChar (c : Char) : Bool := c = ' ' || c = '\t' || c = '\n' || c = '\r'

/-- Drop leading JSON whitespace. -/
def skipWs : List Char → List Char
  | [] => []
  | c :: rest => if isWsChar c then skipWs rest else c :: rest

/-- Value of a hexadecimal digit character. -/
def hexVal (c : Char) : Option Nat :=
  if '0' ≤ c && c ≤ '9' then some (c.toNat - 48)
  else if 'a' ≤ c && c ≤ 'f' then some (c.toNat - 87)
  else if 'A' ≤ c && c ≤ 'F' then some (c.toNat - 55)
  else none

/-- Value of four hexadecimal digit characters. -/
def hex4Val (a b c d : Char) : Option Nat := do
  let va ← hexVal a
  let vb ← hexVal b
  let vc ← hexVal c
  let vd ← hexVal d
  pure (va * 4096 + vb * 256 + vc * 16 + vd)

/-- Two-character escape shortcuts. -/
def escMap (e : Char) : Option Char :=
  if e = '"' then some '"'
  else if e = '\\' then some '\\'
  else if e = '/' then some '/'
  else if e = 'b' then some (Char.ofNat 8)
  else if e = 'f' then some (Char.ofNat 12)
  else if e = 'n' then some '\n'
  else if e = 'r' then some '\r'
  else if e = 't' then some '\t'
  else none

/-- Four hexadecimal characters off the input. -/
def parseHex4Chars : List Char → Option (Nat × List Char)
  | a :: b :: c :: d :: rest => (hex4Val a b c d).map fun n => (n, rest)
  | _ => none

/-- A `\u` escape after the `\u`: four hex digits, recombining a high
surrogate with a following `\u`-escaped low surrogate. -/
def parseUEscape (cs : List Char) : Option (Char × List Char) :=
  (parseHex4Chars cs).bind fun p =>
    if 0xD800 ≤ p.1 ∧ p.1 < 0xDC00 then
      match p.2 with
      | e2 :: u2 :: rest8 =>
        if e2 = '\\' ∧ u2 = 'u' then
          (parseHex4Chars rest8).bind fun q =>
            if 0xDC00 ≤ q.1 ∧ q.1 < 0xE000 then
              some (Char.ofNat (0x10000 + (p.1 - 0xD800) * 0x400 + (q.1 - 0xDC00)), q.2)
            else none
        else none
      | _ => none
    else if 0xDC00 ≤ p.1 ∧ p.1 < 0xE000 then none
    else some (Char.ofNat p.1, p.2)

/-- Parse a JSON string body after the opening quote (fueled; every step
consumes at least one character, so the input length bounds the fuel);
returns the content characters and the input after the closing quote. -/
def parseStrBodyF : Nat → List Char → Option (List Char × List Char)
  | 0, _ => none
  | _ + 1, [] => none
  | f + 1, c :: rest =>
    if c = '"' then some ([], rest)
    else if c = '\\' then
      match rest with
      | [] => none
      | e :: rest2 =>
        if e = 'u' then
          (parseUEscape rest2).bind fun q => (fun p => (q.1 :: p.1, p.2)) <$> parseStrBodyF f q.2
        else (escMap e).bind fun ch => (fun p => (ch :: p.1, p.2)) <$> parseStrBodyF f rest2
    else if c.toNat < 0x20 then none
    else (fun p => (c :: p.1, p.2)) <$> parseStrBodyF f rest

/-- Parse a JSON string body after the opening quote. -/
def parseStrBody (cs : List Char) : Option (List Char × List Char) :=
  parseStrBodyF (cs.length + 1) cs

/-- Split a maximal run of decimal digits off the input. -/
def parseDigits : List Char → List Char × List Char
  | [] => ([], [])
  | c :: rest =>
    if c.isDigit then
      let p := parseDigits rest
      (c :: p.1, p.2)
    else ([], c :: rest)

/-- Numeric value of a digit run. -/
def decVal (ds : List Char) : Nat := ds.foldl (fun acc c => acc * 10 + (c.toNat - 48)) 0

/-- A required exponent: optional sign then digits; produces a float
lexeme. -/
def expOf (lex : List Char) (e : Char) (cs : List Char) : Option (PyVal × List Char) :=
  let p : List Char × List Char :=
    match cs with
    | '+' :: r => (['+'], r)
    | '-' :: r => (['-'], r)
    | r => ([], r)
  match parseDigits p.2 with
  | ([], _) => none
  | (es, r2) => some (.float ⟨lex ++ e :: p.1 ++ es⟩, r2)

/-- Optional exponent after a mantissa lexeme. -/
def expTail (lex : List Char) (cs : List Char) : Option (PyVal × List Char) :=
  match cs with
  | [] => some (.float ⟨lex⟩, [])
  | c :: r =>
    if c = 'e' then expOf lex 'e' r
    else if c = 'E' then expOf lex 'E' r
    else some (.float ⟨lex⟩, c :: r)

/-- Parse the fraction/exponent tail of a JSON number; produces a float
lexeme when present, else the integer. -/
def numTail (neg : Bool) (ds : List Char) (cs : List Char) : Option (PyVal × List Char) :=
  let intVal : Int := if neg then -(decVal ds : Int) else (decVal ds : Int)
  let sign : List Char := if neg then ['-'] else []
  match cs with
  | [] => some (.int intVal, [])
  | c :: r =>
    if c = '.' then
      match parseDigits r with
      | ([], _) => none
      | (fs, r2) => expTail (sign ++ ds ++ '.' :: fs) r2
    else if c = 'e' then expOf (sign ++ ds) 'e' r
    else if c = 'E' then expOf (sign ++ ds) 'E' r
    else some (.int intVal, c :: r)

/-- Parse the unsigned part of a JSON number (`0 | [1-9][0-9]*` then
fraction/exponent). -/
def parseNumBody (neg : Bool) (cs : List Char) : Option (PyVal × List Char) :=
  match cs with
  | [] => none
  | c :: rest =>
    if c = '0' then numTail neg ['0'] rest
    else if c.isDigit then
      match parseDigits rest with
      | (ds, r) => numTail neg (c :: ds) r
    else none

/-- Parse a JSON number (optional `-`, integer part, fraction, exponent). -/
def parseNumber (cs : List Char) : Option (PyVal × List Char) :=
  match cs with
  | [] => none
  | c :: r => if c = '-' then parseNumBody true r else parseNumBody false (c :: r)

/-- Match a literal keyword tail. -/
def litTail (lit : List Char) (cs : List Char) : Option (List Char) :=
  match lit, cs with
  | [], r => some r
  | l :: ls, c :: r => if c = l then litTail ls r else none
  | _ :: _, [] => none

mutual

/-- Parse one JSON value (fueled on nesting). -/
def parseVal : Nat → List Char → Option (PyVal × List Char)
  | 0, _ => none
  | f + 1, cs =>
    match cs with
    | [] => none
    | c :: rest =>
      if c = lbrace then parseObjStart f rest
      else if c = '[' then parseArrStart f rest
      else if c = '"' then (fun p => (PyVal.str ⟨p.1⟩, p.2)) <$> parseStrBody rest
      else if c = 't' then (fun r => ((.bool true : PyVal), r)) <$> litTail ['r', 'u', 'e'] rest
      else if c = 'f' then
        (fun r => ((.bool false : PyVal), r)) <$> litTail ['a', 'l', 's', 'e'] rest
      else if c = 'n' then (fun r => ((.null : PyVal), r)) <$> litTail ['u', 'l', 'l'] rest
      else if c = 'N' then (fun r => ((.float "nan" : PyVal), r)) <$> litTail ['a', 'N'] rest
      else if c = 'I' then
        (fun r => ((.float "inf" : PyVal), r)) <$>
          litTail ['n', 'f', 'i', 'n', 'i', 't', 'y'] rest
      else
        match rest with
        | i :: rest2 =>
          if c = '-' ∧ i = 'I' then
            (fun r => ((.float "-inf" : PyVal), r)) <$>
              litTail ['n', 'f', 'i', 'n', 'i', 't', 'y'] rest2
          else parseNumber (c :: i :: rest2)
        | [] => parseNumber [c]

/-- Parse an object after the opening brace. -/
def parseObjStart : Nat → List Char → Option (PyVal × List Char)
  | 0, _ => none
  | f + 1, cs =>
    match skipWs cs with
    | [] => none
    | c :: rest => if c = rbrace then some (.obj [], rest) else parseMembers f [] (c :: rest)

/-- Parse object members (the next key is expected at the input head). -/
def parseMembers : Nat → List (PyKey × PyVal) → List Char → Option (PyVal × List Char)
  | 0, _, _ => none
  | f + 1, acc, cs =>
    match cs with
    | [] => none
    | c :: r =>
      if c = '"' then
        (parseStrBody r).bind fun p1 =>
          match skipWs p1.2 with
          | [] => none
          | c3 :: r4 =>
            if c3 = ':' then
              (parseVal f (skipWs r4)).bind fun p2 =>
                match skipWs p2.2 with
                | [] => none
                | c6 :: r7 =>
                  if c6 = ',' then parseMembers f (setKey acc (.str ⟨p1.1⟩) p2.1) (skipWs r7)
                  else if c6 = rbrace then some (.obj (setKey acc (.str ⟨p1.1⟩) p2.1), r7)
                  else none
            else none
      else none

/-- Parse an array after the opening bracket. -/
def parseArrStart : Nat → List Char → Option (PyVal × List Char)
  | 0, _ => none
  | f + 1, cs =>
    match skipWs cs with
    | [] => none
    | c :: rest => if c = ']' then some (.list [], rest) else parseElems f [] (c :: rest)

/-- Parse array elements (the next element is expected at the input head). -/
def parseElems : Nat → List PyVal → List Char → Option (PyVal × List Char)
  | 0, _, _ => none
  | f + 1, acc, cs =>
    (parseVal f cs).bind fun p =>
      match skipWs p.2 with
      | [] => none
      | c :: r2 =>
        if c = ',' then parseElems f (acc ++ [p.1]) (skipWs r2)
        else if c = ']' then some (.list (acc ++ [p.1]), r2)
        else none

end

/-- Parse a complete document from its whitespace-stripped text. -/
def json_loads_core (cs : List Char) : Option PyVal :=
  match parseVal (2 * cs.length + 4) cs with
  | some (v, rest) => if skipWs rest = [] then some v else none
  | none => none

/-- `json.loads`: parse a complete document, allowing surrounding
whitespace only. -/
def json_loads (s : String) : Option PyVal :=
  json_loads_core (skipWs s.data)

/-! ## Python `int(str)` (chain-ID key parsing) -/

/-- Whitespace stripped by Python `int(str)`, restricted to ASCII: the
code points 9–13 (tab through carriage return), 28–31 (the separator
controls) and 32 (space). Python additionally strips non-ASCII Unicode
whitespace, which the embedding does not model. -/
def pyIntWs (c : Char) : Bool :=
  c.toNat == 32 || (9 ≤ c.toNat && c.toNat ≤ 13) || (28 ≤ c.toNat && c.toNat ≤ 31)

/-- Digit run with optional single underscores between digits, as Python
`int` accepts. -/
def pyIntGo (acc : Nat) : List Char → Option Nat
  | [] => some acc
  | c :: rest =>
    if c = '_' then
      match rest with
      | [] => none
      | c2 :: rest2 =>
        if c2.isDigit then pyIntGo (acc * 10 + (c2.toNat - 48)) rest2 else none
    else if c.isDigit then pyIntGo (acc * 10 + (c.toNat - 48)) rest
    else none

/-- Nonempty digit run (underscores only between digits). -/
def pyIntDigits : List Char → Option Nat
  | [] => none
  | c :: rest => if c.isDigit then pyIntGo (c.toNat - 48) rest else none

/-- Optional sign, then decimal digits. -/
def pyIntCore : List Char → Option Int
  | [] => none
  | c :: r =>
    if c = '+' then (fun n => (n : Int)) <$> pyIntDigits r
    else if c = '-' then (fun n => -(n : Int)) <$> pyIntDigits r
    else (fun n => (n : Int)) <$> pyIntDigits (c :: r)

/-- Python `int(str)` on ASCII text: strip whitespace, optional sign,
decimal digits with single underscores between them. On ASCII input this
agrees with CPython's `int()`; Python additionally accepts non-ASCII
Unicode decimal digits and whitespace, which no rendered configuration
file contains, so `pyInt s = none` is faithful only for ASCII `s` (a
success `pyInt s = some i` forces `s` to be ASCII and is always
faithful). -/
def pyInt (s : String) : Option Int :=
  pyIntCore ((s.data.dropWhile pyIntWs).reverse.dropWhile pyIntWs).reverse

/-! ## `apischema.deserialize(Configuration, data)`

Explicit per-dataclass deserializers. Findings from independent fields and
entries are aggregated (apischema reports all violations of a pass), a
failed sub-deserialization never aborts its siblings, and the declared
validators run only once construction fully succeeded. -/

/-- Combine two aggregating results, concatenating findings. -/
def comb {α β : Type} (x : Except (List Finding) α) (y : Except (List Finding) β) :
    Except (List Finding) (α × β) :=
  match x, y with
  | .ok a, .ok b => .ok (a, b)
  | .error e, .ok _ => .error e
  | .ok _, .error f => .error f
  | .error e, .error f => .error (e ++ f)

/-- Deserialize a required field of an object. -/
def fld {α : Type} (loc : List String) (kvs : List (PyKey × PyVal)) (name : String)
    (d : PyVal → Except (List Finding) α) : Except (List Finding) α :=
  match lookupKey kvs (.str name) with
  | some v => d v
  | none => .error [(loc ++ [name], "missing property")]

/-- Reject properties outside the declared schema. -/
def unknownChecks (loc : List String) (kvs : List (PyKey × PyVal)) (allowed : List String) :
    Except (List Finding) Unit :=
  let findings := kvs.flatMap fun p =>
    match p.1 with
    | .str s => if allowed.contains s then [] else [((loc ++ [s], "unexpected property") : Finding)]
    | .int i => [((loc ++ [⟨intToDec i⟩], "unexpected property") : Finding)]
  match findings with
  | [] => .ok ()
  | fs => .error fs

/-- Integer with a `min` constraint (`schema(min=m)`). -/
def dIntMin (loc : List String) (m : Int) : PyVal → Except (List Finding) Int
  | .int i => if i < m then .error [(loc, "less than the minimum " ++ toString m)] else .ok i
  | _ => .error [(loc, "expected an integer")]

/-- Integer with `min` and `max` constraints (`schema(min=m, max=M)`). -/
def dIntMinMax (loc : List String) (m M : Int) : PyVal → Except (List Finding) Int
  | .int i =>
    if i < m then .error [(loc, "less than the minimum " ++ toString m)]
    else if M < i then .error [(loc, "greater than the maximum " ++ toString M)]
    else .ok i
  | _ => .error [(loc, "expected an integer")]

/-- A JSON string. -/
def dStr (loc : List String) : PyVal → Except (List Finding) String
  | .str s => .ok s
  | _ => .error [(loc, "expected a string")]

/-- Entries of a string-to-string mapping. -/
def dStrEntries (loc : List String) :
    List (PyKey × PyVal) → Except (List Finding) (List (String × String))
  | [] => .ok []
  | (k, v) :: rest =>
    let e1 : Except (List Finding) (String × String) :=
      match k with
      | .str s => (fun a => (s, a)) <$> dStr (loc ++ [s]) v
      | .int _ => .error [(loc, "expected string property names")]
    (fun p => p.1 :: p.2) <$> comb e1 (dStrEntries loc rest)

/-- `dict[str, ChecksumAddress]` (`token_addresses`). -/
def dTokenAddresses (loc : List String) : PyVal → Except (List Finding) (List (String × String))
  | .obj kvs => dStrEntries loc kvs
  | _ => .error [(loc, "expected an object")]

/-- `TokenConfig` from its JSON object. -/
def dTokenConfig (loc : List String) : PyVal → Except (List Finding) TokenConfig
  | .obj kvs =>
    (fun p => TokenConfig.mk p.2.1 p.2.2) <$>
      comb (unknownChecks loc kvs ["transfer_limit", "eth_in_token"])
        (comb (fld loc kvs "transfer_limit" (dIntMin (loc ++ ["transfer_limit"]) 0))
          (fld loc kvs "eth_in_token" (dIntMin (loc ++ ["eth_in_token"]) 0)))
  | _ => .error [(loc, "expected an object")]

/-- `ChainConfig` from its JSON object. -/
def dChainConfig (loc : List String) : PyVal → Except (List Finding) ChainConfig
  | .obj kvs =>
    (fun p => ChainConfig.mk p.2.1 p.2.2.1 p.2.2.2) <$>
      comb (unknownChecks loc kvs ["finality_period", "target_weight_ppm", "transfer_cost"])
        (comb (fld loc kvs "finality_period" (dIntMin (loc ++ ["finality_period"]) 1))
          (comb (fld loc kvs "target_weight_ppm" (dIntMinMax (loc ++ ["target_weight_ppm"]) 0 999999))
            (fld loc kvs "transfer_cost" (dIntMin (loc ++ ["transfer_cost"]) 0))))
  | _ => .error [(loc, "expected an object")]

/-- Entries of the `chains` mapping: integer keys (the schema's
`dict[ChainId, ChainConfig]` expects integers), `ChainConfig` values. -/
def dChainsEntries (loc : List String) :
    List (PyKey × PyVal) → Except (List Finding) (List (Int × ChainConfig))
  | [] => .ok []
  | (k, v) :: rest =>
    let e1 : Except (List Finding) (Int × ChainConfig) :=
      match k with
      | .int i => (fun cc => (i, cc)) <$> dChainConfig (loc ++ [⟨intToDec i⟩]) v
      | .str s => .error [(loc ++ [s], "expected integer property names")]
    (fun p => p.1 :: p.2) <$> comb e1 (dChainsEntries loc rest)

/-- `dict[ChainId, ChainConfig]`. -/
def dChains (loc : List String) : PyVal → Except (List Finding) (List (Int × ChainConfig))
  | .obj kvs => dChainsEntries loc kvs
  | _ => .error [(loc, "expected an object")]

/-- Entries of the `tokens` mapping. -/
def dTokensEntries (loc : List String) :
    List (PyKey × PyVal) → Except (List Finding) (List (String × TokenConfig))
  | [] => .ok []
  | (k, v) :: rest =>
    let e1 : Except (List Finding) (String × TokenConfig) :=
      match k with
      | .str s => (fun tc => (s, tc)) <$> dTokenConfig (loc ++ [s]) v
      | .int _ => .error [(loc, "expected string property names")]
    (fun p => p.1 :: p.2) <$> comb e1 (dTokensEntries loc rest)

/-- `dict[str, TokenConfig]`. -/
def dTokens (loc : List String) : PyVal → Except (List Finding) (List (String × TokenConfig))
  | .obj kvs => dTokensEntries loc kvs
  | _ => .error [(loc, "expected an object")]

/-- Deduplicate keeping first occurrences (`set` construction, modeled in
insertion order). -/
def dedupAcc (seen : List String) : List String → List String
  | [] => []
  | x :: r => if seen.contains x then dedupAcc seen r else x :: dedupAcc (x :: seen) r

/-- Elements of a string array. -/
def dStrElems (loc : List String) : List PyVal → Except (List Finding) (List String)
  | [] => .ok []
  | v :: rest => (fun p => p.1 :: p.2) <$> comb (dStr loc v) (dStrElems loc rest)

/-- `set[ChecksumAddress]` from a JSON array of strings. -/
def dWhitelist (loc : List String) : PyVal → Except (List Finding) (List String)
  | .list xs => dedupAcc [] <$> dStrElems loc xs
  | _ => .error [(loc, "expected an array")]

/-- `RequestManagerConfig` from its JSON object. -/
def dRequestManager (loc : List String) : PyVal → Except (List Finding) RequestManagerConfig
  | .obj kvs =>
    (fun p => RequestManagerConfig.mk p.2.1 p.2.2.1 p.2.2.2.1 p.2.2.2.2.1 p.2.2.2.2.2.1
        p.2.2.2.2.2.2) <$>
      comb (unknownChecks loc kvs
          ["min_fee_ppm", "lp_fee_ppm", "protocol_fee_ppm", "chains", "tokens", "whitelist"])
        (comb (fld loc kvs "min_fee_ppm" (dIntMin (loc ++ ["min_fee_ppm"]) 0))
          (comb (fld loc kvs "lp_fee_ppm" (dIntMinMax (loc ++ ["lp_fee_ppm"]) 0 999999))
            (comb (fld loc kvs "protocol_fee_ppm" (dIntMinMax (loc ++ ["protocol_fee_ppm"]) 0 999999))
              (comb (fld loc kvs "chains" (dChains (loc ++ ["chains"])))
                (comb (fld loc kvs "tokens" (dTokens (loc ++ ["tokens"])))
                  (fld loc kvs "whitelist" (dWhitelist (loc ++ ["whitelist"]))))))))
  | _ => .error [(loc, "expected an object")]

/-- `FillManagerConfig` from its JSON object. -/
def dFillManager (loc : List String) : PyVal → Except (List Finding) FillManagerConfig
  | .obj kvs =>
    (fun p => FillManagerConfig.mk p.2) <$>
      comb (unknownChecks loc kvs ["whitelist"])
        (fld loc kvs "whitelist" (dWhitelist (loc ++ ["whitelist"])))
  | _ => .error [(loc, "expected an object")]

/-- Schema-level deserialization of a `Configuration` (field constraints
and structure, without the validators). -/
def dConfigurationSchema : PyVal → Except (List Finding) Configuration
  | .obj kvs =>
    (fun p => Configuration.mk p.2.1 p.2.2.1 p.2.2.2.1 p.2.2.2.2.1 p.2.2.2.2.2) <$>
      comb (unknownChecks [] kvs
          ["block", "chain_id", "token_addresses", "RequestManager", "FillManager"])
        (comb (fld [] kvs "block" (dIntMin ["block"] 1))
          (comb (fld [] kvs "chain_id" (dIntMin ["chain_id"] 1))
            (comb (fld [] kvs "token_addresses" (dTokenAddresses ["token_addresses"]))
              (comb (fld [] kvs "RequestManager" (dRequestManager ["RequestManager"]))
                (fld [] kvs "FillManager" (dFillManager ["FillManager"]))))))
  | _ => .error [([], "expected an object")]

/-- `apischema.deserialize(Configuration, data)`: construct, then run the
declared validators; all their findings are reported together. -/
def deserializeConfiguration (v : PyVal) : Except (List Finding) Configuration :=
  match dConfigurationSchema v with
  | .error e => .error e
  | .ok c =>
    match c.validationFindings with
    | [] => .ok c
    | fs => .error fs

/-! ## `Configuration.from_file` and `Configuration.to_file` -/

/-- Failure of `Configuration.from_file`. -/
inductive LoadError where
  /-- `json.load` raised `JSONDecodeError` (malformed input). -/
  | jsonDecode
  /-- The top-level value (or a sub-value the normalization indexes into)
  is not an object, so the Python code raises `TypeError`/`AttributeError`. -/
  | typeError
  /-- `data.pop("checksum")` raised `KeyError`. -/
  | keyError (k : String)
  /-- `ValidationError(f"invalid chain ID: {chain_id}")`. -/
  | invalidChainId (msg : String)
  /-- `ValidationError` wrapping the `apischema.ValidationError` findings. -/
  | validationFailed (findings : List Finding)
  /-- `ValidationError(f"checksum mismatch: {checksum} (expected {computed_checksum})")`;
  carries the stored value and the computed digest the message names. -/
  | checksumMismatch (stored : PyVal) (computed : String)

/-- Normalize the keys of the `chains` object: each key is parsed as an
integer chain ID and reinserted; the first unparsable key aborts with that
key. -/
def normalizeChainsAcc (acc : List (PyKey × PyVal)) :
    List (PyKey × PyVal) → Except String (List (PyKey × PyVal))
  | [] => .ok acc
  | (k, v) :: rest =>
    match k with
    | .int i => normalizeChainsAcc (setKey acc (.int i) v) rest
    | .str s =>
      match pyInt s with
      | some i => normalizeChainsAcc (setKey acc (.int i) v) rest
      | none => .error s

/-- Key normalization of a `chains` object, from the empty accumulator. -/
def normalizeChains (kvs : List (PyKey × PyVal)) : Except String (List (PyKey × PyVal)) :=
  normalizeChainsAcc [] kvs

/-- The chain-ID key-normalization step of `Configuration.from_file`: when
the top-level object has a `RequestManager` member with a non-`None`
`chains` member, replace that member by its key-normalized form. -/
def normStep (kvs : List (PyKey × PyVal)) : Except LoadError (List (PyKey × PyVal)) :=
  match lookupKey kvs (.str "RequestManager") with
  | none => .ok kvs
  | some (.obj rmkvs) =>
    match lookupKey rmkvs (.str "chains") with
    | none => .ok kvs
    | some .null => .ok kvs
    | some (.obj chainKvs) =>
      match normalizeChains chainKvs with
      | .ok newChains =>
        .ok (setKey kvs (.str "RequestManager")
              (.obj (setKey rmkvs (.str "chains") (.obj newChains))))
      | .error k => .error (.invalidChainId ("invalid chain ID: " ++ k))
    | some _ => .error .typeError
  | some _ => .error .typeError

/-- The final checksum comparison of `Configuration.from_file`: Python
compares `checksum != computed_checksum` where the computed digest is a
`str`; a non-string stored value never equals it. -/
def from_fileChecked (stored : PyVal) (config : Configuration) :
    Except LoadError Configuration :=
  match stored with
  | PyVal.str s =>
    if s = config.compute_checksum then .ok config
    else .error (.checksumMismatch (PyVal.str s) config.compute_checksum)
  | other => .error (.checksumMismatch other config.compute_checksum)

/-- `Configuration.from_file` after key normalization: checksum removal,
deserialization, checksum comparison. -/
def from_fileBody (kvs' : List (PyKey × PyVal)) : Except LoadError Configuration :=
  match lookupKey kvs' (.str "checksum") with
  | none => .error (.keyError "checksum")
  | some stored =>
    match deserializeConfiguration (.obj (eraseKey kvs' (.str "checksum"))) with
    | .error fs => .error (.validationFailed fs)
    | .ok config => from_fileChecked stored config

/-- `Configuration.from_file` after `json.load`: chain-ID key
normalization, checksum removal, deserialization, checksum comparison. -/
def from_fileData (data : PyVal) : Except LoadError Configuration :=
  match data with
  | .obj kvs =>
    match normStep kvs with
    | .error e => .error e
    | .ok kvs' => from_fileBody kvs'
  | _ => .error .typeError

/-- `Configuration.from_file` on the file's text. -/
def from_file (text : String) : Except LoadError Configuration :=
  match json_loads text with
  | none => .error .jsonDecode
  | some data => from_fileData data

/-- `Configuration.to_file` as the written text. -/
def Configuration.to_file (c : Configuration) : String := ⟨c.to_file_text⟩

/-! ## Validity of a configuration

A configuration is valid when it satisfies the spec's invariants 1–3
(checksummed addresses, token coverage, field ranges) together with the
representation invariants of the embedding of Python containers: mapping
keys are duplicate-free, and the whitelist lists that stand for Python
sets are duplicate-free. -/

/-- All invariants of a well-formed in-memory `Configuration`. -/
def Configuration.valid (c : Configuration) : Prop :=
  1 ≤ c.block ∧ 1 ≤ c.chain_id ∧
  (∀ p ∈ c.token_addresses, is_checksum_address p.2 = true) ∧
  (∀ p ∈ c.request_manager.tokens, ∃ q ∈ c.token_addresses, q.1 = p.1) ∧
  0 ≤ c.request_manager.min_fee_ppm ∧
  0 ≤ c.request_manager.lp_fee_ppm ∧ c.request_manager.lp_fee_ppm ≤ 999999 ∧
  0 ≤ c.request_manager.protocol_fee_ppm ∧ c.request_manager.protocol_fee_ppm ≤ 999999 ∧
  (∀ p ∈ c.request_manager.chains,
    1 ≤ p.2.finality_period ∧ 0 ≤ p.2.target_weight_ppm ∧ p.2.target_weight_ppm ≤ 999999 ∧
      0 ≤ p.2.transfer_cost) ∧
  (∀ p ∈ c.request_manager.tokens, 0 ≤ p.2.transfer_limit ∧ 0 ≤ p.2.eth_in_token) ∧
  (c.token_addresses.map Prod.fst).Nodup ∧
  (c.request_manager.chains.map Prod.fst).Nodup ∧
  (c.request_manager.tokens.map Prod.fst).Nodup ∧
  c.request_manager.whitelist.Nodup ∧
  c.fill_manager.whitelist.Nodup

/-! ## Parsed values of serialized configurations

The `PyVal` documents `json.load` yields back from the serialized
renderings, plus the item lists tying each rendered sub-document to its
parse. -/

/-- `json.load` of a serialized `TokenConfig`. -/
def TokenConfig.pyVal (t : TokenConfig) : PyVal :=
  .obj [(.str "transfer_limit", .int t.transfer_limit),
        (.str "eth_in_token", .int t.eth_in_token)]

/-- `json.load` of a serialized `ChainConfig`. -/
def ChainConfig.pyVal (cc : ChainConfig) : PyVal :=
  .obj [(.str "finality_period", .int cc.finality_period),
        (.str "target_weight_ppm", .int cc.target_weight_ppm),
        (.str "transfer_cost", .int cc.transfer_cost)]

/-- `json.load` of a serialized string-to-string mapping. -/
def strDictVal (l : List (String × String)) : PyVal :=
  .obj (l.map fun p => (.str p.1, .str p.2))

/-- `json.load` of a serialized string list. -/
def strListVal (xs : List String) : PyVal := .list (xs.map PyVal.str)

/-- `json.load` of the serialized `tokens` mapping. -/
def tokensVal (l : List (String × TokenConfig)) : PyVal :=
  .obj (l.map fun p => (.str p.1, p.2.pyVal))

/-- `json.load` of the serialized `chains` mapping: the keys come back as
decimal strings. -/
def chainsVal (l : List (Int × ChainConfig)) : PyVal :=
  .obj (l.map fun p => (.str (String.mk (intToDec p.1)), p.2.pyVal))

/-- The `chains` mapping after `from_file` key normalization: integer
keys. -/
def chainsNormVal (l : List (Int × ChainConfig)) : PyVal :=
  .obj (l.map fun p => (.int p.1, p.2.pyVal))

/-- `json.load` of a serialized `RequestManagerConfig`. -/
def RequestManagerConfig.pyVal (rm : RequestManagerConfig) : PyVal :=
  .obj [(.str "min_fee_ppm", .int rm.min_fee_ppm),
        (.str "lp_fee_ppm", .int rm.lp_fee_ppm),
        (.str "protocol_fee_ppm", .int rm.protocol_fee_ppm),
        (.str "chains", chainsVal rm.chains),
        (.str "tokens", tokensVal rm.tokens),
        (.str "whitelist", strListVal rm.whitelist)]

/-- A loaded `RequestManagerConfig` object after chain-ID key
normalization. -/
def RequestManagerConfig.normVal (rm : RequestManagerConfig) : PyVal :=
  .obj [(.str "min_fee_ppm", .int rm.min_fee_ppm),
        (.str "lp_fee_ppm", .int rm.lp_fee_ppm),
        (.str "protocol_fee_ppm", .int rm.protocol_fee_ppm),
        (.str "chains", chainsNormVal rm.chains),
        (.str "tokens", tokensVal rm.tokens),
        (.str "whitelist", strListVal rm.whitelist)]

/-- `json.load` of a serialized `FillManagerConfig`. -/
def FillManagerConfig.pyVal (fm : FillManagerConfig) : PyVal :=
  .obj [(.str "whitelist", strListVal fm.whitelist)]

/-- The top-level pairs `json.load` yields from a `to_file` document. -/
def Configuration.filePairs (c : Configuration) : List (PyKey × PyVal) :=
  [(.str "checksum", .str c.compute_checksum),
   (.str "block", .int c.block),
   (.str "chain_id", .int c.chain_id),
   (.str "token_addresses", strDictVal c.token_addresses),
   (.str "RequestManager", c.request_manager.pyVal),
   (.str "FillManager", c.fill_manager.pyVal)]

/-- The top-level pairs after chain-ID key normalization. -/
def Configuration.normPairs (c : Configuration) : List (PyKey × PyVal) :=
  [(.str "checksum", .str c.compute_checksum),
   (.str "block", .int c.block),
   (.str "chain_id", .int c.chain_id),
   (.str "token_addresses", strDictVal c.token_addresses),
   (.str "RequestManager", c.request_manager.normVal),
   (.str "FillManager", c.fill_manager.pyVal)]

/-- The normalized top-level pairs with `checksum` popped: the document
`apischema.deserialize` receives. -/
def Configuration.bodyPairs (c : Configuration) : List (PyKey × PyVal) :=
  [(.str "block", .int c.block),
   (.str "chain_id", .int c.chain_id),
   (.str "token_addresses", strDictVal c.token_addresses),
   (.str "RequestManager", c.request_manager.normVal),
   (.str "FillManager", c.fill_manager.pyVal)]

/-- The item lists (key, rendered value, parsed value) of each rendered
object shape. -/
def tcItems (t : TokenConfig) : List (String × List Char × PyVal) :=
  [("transfer_limit", intToDec t.transfer_limit, .int t.transfer_limit),
   ("eth_in_token", intToDec t.eth_in_token, .int t.eth_in_token)]

/-- Item list of a rendered `ChainConfig`. -/
def ccItems (cc : ChainConfig) : List (String × List Char × PyVal) :=
  [("finality_period", intToDec cc.finality_period, .int cc.finality_period),
   ("target_weight_ppm", intToDec cc.target_weight_ppm, .int cc.target_weight_ppm),
   ("transfer_cost", intToDec cc.transfer_cost, .int cc.transfer_cost)]

/-- Item list of a rendered string-to-string mapping. -/
def strDictItems (l : List (String × String)) : List (String × List Char × PyVal) :=
  l.map fun p => (p.1, jsonQuote p.2, .str p.2)

/-- Item list of a rendered string array. -/
def strListItems (xs : List String) : List (List Char × PyVal) :=
  xs.map fun s => (jsonQuote s, .str s)

/-- Item list of the rendered `tokens` mapping (values at depth `dd`). -/
def tokensItems (dd : Nat) (l : List (String × TokenConfig)) :
    List (String × List Char × PyVal) :=
  l.map fun p => (p.1, renderTokenConfig dd p.2, p.2.pyVal)

/-- Item list of the rendered `chains` mapping (values at depth `dd`). -/
def chainsItems (dd : Nat) (l : List (Int × ChainConfig)) :
    List (String × List Char × PyVal) :=
  l.map fun p => (String.mk (intToDec p.1), renderChainConfig dd p.2, p.2.pyVal)

/-- Item list of a rendered `RequestManagerConfig` at depth `d`. -/
def rmItems (d : Nat) (rm : RequestManagerConfig) : List (String × List Char × PyVal) :=
  [("min_fee_ppm", intToDec rm.min_fee_ppm, .int rm.min_fee_ppm),
   ("lp_fee_ppm", intToDec rm.lp_fee_ppm, .int rm.lp_fee_ppm),
   ("protocol_fee_ppm", intToDec rm.protocol_fee_ppm, .int rm.protocol_fee_ppm),
   ("chains", renderChainsDict (d + 1) rm.chains, chainsVal rm.chains),
   ("tokens", renderTokensDict (d + 1) rm.tokens, tokensVal rm.tokens),
   ("whitelist", renderStrList (d + 1) rm.whitelist, strListVal rm.whitelist)]

/-- Item list of a rendered `FillManagerConfig` at depth `d`. -/
def fmItems (d : Nat) (fm : FillManagerConfig) : List (String × List Char × PyVal) :=
  [("whitelist", renderStrList (d + 1) fm.whitelist, strListVal fm.whitelist)]

/-- Item list of the serialized configuration body (without checksum). -/
def cfgItems (c : Configuration) : List (String × List Char × PyVal) :=
  [("block", intToDec c.block, .int c.block),
   ("chain_id", intToDec c.chain_id, .int c.chain_id),
   ("token_addresses", renderStrDict 1 c.token_addresses, strDictVal c.token_addresses),
   ("RequestManager", renderRequestManager 1 c.request_manager, c.request_manager.pyVal),
   ("FillManager", renderFillManager 1 c.fill_manager, c.fill_manager.pyVal)]

/-- Item list of the written file (checksum first). -/
def fileItems (c : Configuration) : List (String × List Char × PyVal) :=
  ("checksum", jsonQuote c.compute_checksum, .str c.compute_checksum) :: cfgItems c

/-! ## Line surgery on a written file

The spec describes stripping the line that carries the checksum entry;
these model that operation on the text. -/

/-- The first line of a text, including its newline. -/
def takeLine : List Char → List Char
  | [] => []
  | c :: r => if c = '\n' then ['\n'] else c :: takeLine r

/-- Drop the first line of a text, including its newline. -/
def dropLine : List Char → List Char
  | [] => []
  | c :: r => if c = '\n' then r else dropLine r

/-- Remove the second line of a text (for a written configuration file,
the line holding the checksum entry). -/
def removeSecondLine (cs : List Char) : List Char :=
  takeLine cs ++ dropLine (dropLine cs)

/-! ## Basic character and digit lemmas -/

theorem isDigit_toNat {c : Char} (h : c.isDigit = true) : 48 ≤ c.toNat ∧ c.toNat ≤ 57 := by
  simp [Char.isDigit] at h
  exact h

theorem toNat_ne {c d : Char} (h : c.toNat ≠ d.toNat) : c ≠ d := by
  intro he
  exact h (by rw [he])

theorem digitChar_toNat {n : Nat} (h : n < 10) : (digitChar n).toNat = 48 + n := by
  interval_cases n <;> decide

theorem digitChar_isDigit {n : Nat} (h : n < 10) : (digitChar n).isDigit = true := by
  interval_cases n <;> decide

theorem digitChar_ne_zero {n : Nat} (h1 : 1 ≤ n) (h2 : n < 10) : digitChar n ≠ '0' := by
  interval_cases n <;> decide

/-! ## `natToDec` and `decVal` -/

theorem natToDecF_congr (n : Nat) :
    ∀ f g, n < f → n < g → natToDecF f n = natToDecF g n := by
  induction n using Nat.strong_induction_on with
  | _ n ih =>
    intro f g hf hg
    match f, g with
    | f' + 1, g' + 1 =>
      by_cases h : n < 10
      · simp [natToDecF, h]
      · have h10 : 10 ≤ n := Nat.le_of_not_lt h
        have hlt : n / 10 < n := Nat.div_lt_self (by omega) (by omega)
        simp only [natToDecF, if_neg h]
        exact congrArg (· ++ [digitChar (n % 10)])
          (ih (n / 10) hlt f' g' (by omega) (by omega))

theorem natToDecF_succ (f m : Nat) :
    natToDecF (f + 1) m =
      if m < 10 then [digitChar m] else natToDecF f (m / 10) ++ [digitChar (m % 10)] := rfl

theorem natToDec_unfold (n : Nat) :
    natToDec n = if n < 10 then [digitChar n] else natToDec (n / 10) ++ [digitChar (n % 10)] := by
  by_cases h : n < 10
  · simp [natToDec, natToDecF_succ, h]
  · have hlt : n / 10 < n := Nat.div_lt_self (by omega) (by omega)
    simp only [natToDec, natToDecF_succ, if_neg h]
    exact congrArg (· ++ [digitChar (n % 10)])
      (natToDecF_congr (n / 10) n (n / 10 + 1) (by omega) (by omega))

theorem natToDec_digits (n : Nat) : ∀ c ∈ natToDec n, c.isDigit = true := by
  induction n using Nat.strong_induction_on with
  | _ n ih =>
    rw [natToDec_unfold]
    by_cases h : n < 10
    · simp [h]
      exact digitChar_isDigit h
    · have hlt : n / 10 < n := Nat.div_lt_self (by omega) (by omega)
      simp [h]
      intro c hc
      rcases hc with hc | hc
      · exact ih (n / 10) hlt c hc
      · rw [hc]
        exact digitChar_isDigit (Nat.mod_lt _ (by omega))

theorem natToDec_head (n : Nat) :
    ∃ d ds, natToDec n = d :: ds ∧ d.isDigit = true ∧ (1 ≤ n → d ≠ '0') := by
  induction n using Nat.strong_induction_on with
  | _ n ih =>
    rw [natToDec_unfold]
    by_cases h : n < 10
    · refine ⟨digitChar n, [], by simp [h], digitChar_isDigit h, fun h1 => ?_⟩
      exact digitChar_ne_zero h1 h
    · have hlt : n / 10 < n := Nat.div_lt_self (by omega) (by omega)
      obtain ⟨d, ds, heq, hdig, hnz⟩ := ih (n / 10) hlt
      refine ⟨d, ds ++ [digitChar (n % 10)], by simp [h, heq], hdig, fun _ => ?_⟩
      exact hnz (by omega)

theorem decVal_append_one (xs : List Char) (c : Char) :
    decVal (xs ++ [c]) = decVal xs * 10 + (c.toNat - 48) := by
  simp [decVal, List.foldl_append]

theorem decVal_natToDec (n : Nat) : decVal (natToDec n) = n := by
  induction n using Nat.strong_induction_on with
  | _ n ih =>
    rw [natToDec_unfold]
    by_cases h : n < 10
    · simp [h, decVal, digitChar_toNat h]
    · have hlt : n / 10 < n := Nat.div_lt_self (by omega) (by omega)
      rw [if_neg h, decVal_append_one, ih (n / 10) hlt,
        digitChar_toNat (Nat.mod_lt _ (by omega))]
      omega

/-! ## `skipWs` -/

theorem skipWs_sp (n : Nat) (cs : List Char) : skipWs (sp n ++ cs) = skipWs cs := by
  induction n with
  | zero => simp [sp]
  | succ k ih =>
    simp only [sp, List.replicate_succ, List.cons_append]
    rw [show skipWs (' ' :: (List.replicate k ' ' ++ cs)) = skipWs (List.replicate k ' ' ++ cs)
      from by simp [skipWs, isWsChar]]
    exact ih

theorem skipWs_nl (cs : List Char) : skipWs ('\n' :: cs) = skipWs cs := by
  simp [skipWs, isWsChar]

theorem skipWs_not_ws {c : Char} (h : isWsChar c = false) (cs : List Char) :
    skipWs (c :: cs) = c :: cs := by
  simp [skipWs, h]

/-! ## String escape/unescape roundtrip -/

theorem hexVal_hexDigitChar {d : Nat} (h : d < 16) : hexVal (hexDigitChar d) = some d := by
  interval_cases d <;> decide

theorem hex4Val_hex4 {n : Nat} (h : n < 65536) :
    hex4Val (hexDigitChar (n / 4096 % 16)) (hexDigitChar (n / 256 % 16))
      (hexDigitChar (n / 16 % 16)) (hexDigitChar (n % 16)) = some n := by
  rw [hex4Val]
  rw [hexVal_hexDigitChar (Nat.mod_lt _ (by omega)),
    hexVal_hexDigitChar (Nat.mod_lt _ (by omega)),
    hexVal_hexDigitChar (Nat.mod_lt _ (by omega)),
    hexVal_hexDigitChar (Nat.mod_lt _ (by omega))]
  simp only [Option.bind_eq_bind, Option.some_bind, Option.pure_def, Option.some.injEq]
  omega

theorem char_toNat_valid (c : Char) :
    c.toNat < 55296 ∨ (57344 ≤ c.toNat ∧ c.toNat < 1114112) := by
  have h := c.valid
  simp only [UInt32.isValidChar, Nat.isValidChar] at h
  exact h

theorem parseHex4Chars_hex4 {n : Nat} (h : n < 65536) (tail : List Char) :
    parseHex4Chars (hex4 n ++ tail) = some (n, tail) := by
  rw [hex4]
  simp only [List.cons_append, List.nil_append]
  rw [parseHex4Chars, hex4Val_hex4 h]
  rfl

theorem parseUEscape_scalar {n : Nat} (h1 : n < 55296 ∨ (57344 ≤ n ∧ n < 65536))
    (tail : List Char) :
    parseUEscape (hex4 n ++ tail) = some (Char.ofNat n, tail) := by
  rw [parseUEscape, parseHex4Chars_hex4 (by omega)]
  simp only [Option.some_bind]
  rw [if_neg (by omega), if_neg (by omega)]

theorem parseUEscape_pair {n m : Nat} (hn : 55296 ≤ n ∧ n < 56320)
    (hm : 56320 ≤ m ∧ m < 57344) (tail : List Char) :
    parseUEscape (hex4 n ++ '\\' :: 'u' :: (hex4 m ++ tail)) =
      some (Char.ofNat (65536 + (n - 55296) * 1024 + (m - 56320)), tail) := by
  rw [parseUEscape, parseHex4Chars_hex4 (by omega)]
  simp only [Option.some_bind]
  rw [if_pos (by omega)]
  conv_lhs => whnf
  rw [parseHex4Chars_hex4 (by omega)]
  simp only [Option.some_bind]
  rw [if_pos (by omega)]

/-- One-step unfolding of `parseStrBodyF` on a cons cell. -/
theorem parseStrBodyF_cons (f : Nat) (c : Char) (rest : List Char) :
    parseStrBodyF (f + 1) (c :: rest) =
      (if c = '"' then some ([], rest)
       else if c = '\\' then
         match rest with
         | [] => none
         | e :: rest2 =>
           if e = 'u' then
             (parseUEscape rest2).bind fun q =>
               (fun p => (q.1 :: p.1, p.2)) <$> parseStrBodyF f q.2
           else (escMap e).bind fun ch => (fun p => (ch :: p.1, p.2)) <$> parseStrBodyF f rest2
       else if c.toNat < 0x20 then none
       else (fun p => (c :: p.1, p.2)) <$> parseStrBodyF f rest) := by
  rw [parseStrBodyF.eq_def]

theorem parseStrBodyF_escChar (c : Char) (tail : List Char) (k : List Char × List Char)
    (f : Nat) (h : parseStrBodyF f tail = some k) :
    parseStrBodyF (f + 1) (escChar c ++ tail) = some (c :: k.1, k.2) := by
  by_cases h1 : c = '"'
  · subst h1
    rw [show escChar '"' = ['\\', '"'] from by decide]
    rw [List.cons_append, List.cons_append, List.nil_append, parseStrBodyF_cons]
    conv_lhs => whnf
    rw [h]
  by_cases h2 : c = '\\'
  · subst h2
    rw [show escChar '\\' = ['\\', '\\'] from by decide]
    rw [List.cons_append, List.cons_append, List.nil_append, parseStrBodyF_cons]
    conv_lhs => whnf
    rw [h]
  by_cases h3 : c = '\n'
  · subst h3
    rw [show escChar '\n' = ['\\', 'n'] from by decide]
    rw [List.cons_append, List.cons_append, List.nil_append, parseStrBodyF_cons]
    conv_lhs => whnf
    rw [h]
  by_cases h4 : c = '\r'
  · subst h4
    rw [show escChar '\r' = ['\\', 'r'] from by decide]
    rw [List.cons_append, List.cons_append, List.nil_append, parseStrBodyF_cons]
    conv_lhs => whnf
    rw [h]
  by_cases h5 : c = '\t'
  · subst h5
    rw [show escChar '\t' = ['\\', 't'] from by decide]
    rw [List.cons_append, List.cons_append, List.nil_append, parseStrBodyF_cons]
    conv_lhs => whnf
    rw [h]
  by_cases h6 : c.toNat = 8
  · have hc : c = Char.ofNat 8 := by rw [← h6, Char.ofNat_toNat]
    subst hc
    rw [show escChar (Char.ofNat 8) = ['\\', 'b'] from by decide]
    rw [List.cons_append, List.cons_append, List.nil_append, parseStrBodyF_cons]
    conv_lhs => whnf
    rw [h]
  by_cases h7 : c.toNat = 12
  · have hc : c = Char.ofNat 12 := by rw [← h7, Char.ofNat_toNat]
    subst hc
    rw [show escChar (Char.ofNat 12) = ['\\', 'f'] from by decide]
    rw [List.cons_append, List.cons_append, List.nil_append, parseStrBodyF_cons]
    conv_lhs => whnf
    rw [h]
  by_cases h8 : c.toNat < 32
  · have he : escChar c = '\\' :: 'u' :: hex4 c.toNat := by
      rw [escChar]
      rw [if_neg h1, if_neg h2, if_neg h3, if_neg h4, if_neg h5,
        if_neg (by simpa using h6), if_neg (by simpa using h7), if_pos h8]
    rw [he, show ('\\' :: 'u' :: hex4 c.toNat) ++ tail = '\\' :: 'u' :: (hex4 c.toNat ++ tail)
      from by simp]
    rw [parseStrBodyF_cons, if_neg (by decide), if_pos rfl]
    conv_lhs => whnf
    rw [parseUEscape_scalar (Or.inl (by omega))]
    simp only [Option.some_bind]
    rw [h, Char.ofNat_toNat]
    rfl
  by_cases h9 : c.toNat ≤ 126
  · have hne : escChar c = [c] := by
      rw [escChar]
      rw [if_neg h1, if_neg h2, if_neg h3, if_neg h4, if_neg h5,
        if_neg (by simpa using h6), if_neg (by simpa using h7), if_neg h8, if_pos h9]
    rw [hne]
    simp only [List.cons_append, List.nil_append]
    rw [parseStrBodyF_cons, if_neg h1, if_neg h2, if_neg (by omega), h]
    rfl
  by_cases h10 : c.toNat < 65536
  · have hval := char_toNat_valid c
    have he : escChar c = '\\' :: 'u' :: hex4 c.toNat := by
      rw [escChar]
      rw [if_neg h1, if_neg h2, if_neg h3, if_neg h4, if_neg h5,
        if_neg (by simpa using h6), if_neg (by simpa using h7), if_neg h8,
        if_neg (by omega), if_pos h10]
    rw [he, show ('\\' :: 'u' :: hex4 c.toNat) ++ tail = '\\' :: 'u' :: (hex4 c.toNat ++ tail)
      from by simp]
    rw [parseStrBodyF_cons, if_neg (by decide), if_pos rfl]
    conv_lhs => whnf
    rw [parseUEscape_scalar (by omega)]
    simp only [Option.some_bind]
    rw [h, Char.ofNat_toNat]
    rfl
  · have hval := char_toNat_valid c
    have hmod : (c.toNat - 65536) % 1024 < 1024 := Nat.mod_lt _ (by omega)
    have hdiv : (c.toNat - 65536) / 1024 < 1024 := by omega
    have he : escChar c =
        '\\' :: 'u' :: (hex4 (55296 + (c.toNat - 65536) / 1024) ++
          ('\\' :: 'u' :: hex4 (56320 + (c.toNat - 65536) % 1024))) := by
      rw [escChar]
      rw [if_neg h1, if_neg h2, if_neg h3, if_neg h4, if_neg h5,
        if_neg (by simpa using h6), if_neg (by simpa using h7), if_neg h8,
        if_neg (by omega), if_neg h10]
      simp
    rw [he]
    rw [show ('\\' :: 'u' :: (hex4 (55296 + (c.toNat - 65536) / 1024) ++
          ('\\' :: 'u' :: hex4 (56320 + (c.toNat - 65536) % 1024)))) ++ tail =
        '\\' :: 'u' :: (hex4 (55296 + (c.toNat - 65536) / 1024) ++
          ('\\' :: 'u' :: (hex4 (56320 + (c.toNat - 65536) % 1024) ++ tail)))
      from by simp]
    rw [parseStrBodyF_cons, if_neg (by decide), if_pos rfl]
    show (if ('u' : Char) = 'u' then
        (parseUEscape (hex4 (55296 + (c.toNat - 65536) / 1024) ++
          ('\\' :: 'u' :: (hex4 (56320 + (c.toNat - 65536) % 1024) ++ tail)))).bind fun q =>
          (fun p => (q.1 :: p.1, p.2)) <$> parseStrBodyF f q.2
      else (escMap 'u').bind fun ch =>
        (fun p => (ch :: p.1, p.2)) <$> parseStrBodyF f
          (hex4 (55296 + (c.toNat - 65536) / 1024) ++
            ('\\' :: 'u' :: (hex4 (56320 + (c.toNat - 65536) % 1024) ++ tail)))) = _
    rw [if_pos rfl]
    rw [parseUEscape_pair (by omega) (by omega)]
    simp only [Option.some_bind]
    rw [h]
    have hcomb : 65536 + (55296 + (c.toNat - 65536) / 1024 - 55296) * 1024 +
        (56320 + (c.toNat - 65536) % 1024 - 56320) = c.toNat := by omega
    rw [hcomb, Char.ofNat_toNat]
    rfl

theorem parseStrBodyF_render (l : List Char) (rest : List Char) :
    ∀ f, l.length < f → parseStrBodyF f (l.flatMap escChar ++ '"' :: rest) = some (l, rest) := by
  induction l with
  | nil =>
    intro f hf
    obtain ⟨f', rfl⟩ : ∃ f', f = f' + 1 := ⟨f - 1, by omega⟩
    simp only [List.flatMap_nil, List.nil_append]
    rw [parseStrBodyF_cons, if_pos rfl]
  | cons c l ih =>
    intro f hf
    obtain ⟨f', rfl⟩ : ∃ f', f = f' + 1 := ⟨f - 1, by omega⟩
    simp only [List.flatMap_cons, List.append_assoc]
    exact parseStrBodyF_escChar c _ (l, rest) f'
      (ih f' (by simp only [List.length_cons] at hf; omega))

set_option maxHeartbeats 1000000 in
theorem escChar_length_pos (c : Char) : 1 ≤ (escChar c).length := by
  rw [escChar]
  split_ifs <;> simp [hex4]

theorem flatMap_escChar_length (l : List Char) : l.length ≤ (l.flatMap escChar).length := by
  induction l with
  | nil => simp
  | cons c l ih =>
    simp only [List.flatMap_cons, List.length_append, List.length_cons]
    have := escChar_length_pos c
    omega

theorem parseStrBody_render (l : List Char) (rest : List Char) :
    parseStrBody (l.flatMap escChar ++ '"' :: rest) = some (l, rest) := by
  rw [parseStrBody]
  apply parseStrBodyF_render
  have := flatMap_escChar_length l
  simp only [List.length_append, List.length_cons]
  omega

/-! ## Number parsing roundtrip -/

/-- The input does not continue a just-parsed number: empty, or a head that
is no digit, decimal point, or exponent marker. -/
def numStop : List Char → Prop
  | [] => True
  | c :: _ => c.isDigit = false ∧ c ≠ '.' ∧ c ≠ 'e' ∧ c ≠ 'E'

theorem parseDigits_run (ds : List Char) (hds : ∀ c ∈ ds, c.isDigit = true)
    (rest : List Char) (hrest : numStop rest) : parseDigits (ds ++ rest) = (ds, rest) := by
  induction ds with
  | nil =>
    simp only [List.nil_append]
    match rest, hrest with
    | [], _ => rfl
    | c :: r, hr =>
      rw [parseDigits, if_neg (by simp [hr.1])]
  | cons c ds ih =>
    simp only [List.cons_append]
    rw [parseDigits, if_pos (hds c (by simp)), ih (fun x hx => hds x (by simp [hx]))]

theorem numTail_int (neg : Bool) (ds : List Char) (rest : List Char) (h : numStop rest) :
    numTail neg ds rest =
      some (.int (if neg then -(decVal ds : Int) else (decVal ds : Int)), rest) := by
  match rest, h with
  | [], _ => rfl
  | c :: r, hr =>
    rw [numTail]
    rw [if_neg hr.2.1, if_neg hr.2.2.1, if_neg hr.2.2.2]

theorem parseNumBody_natToDec (neg : Bool) (n : Nat) (rest : List Char) (h : numStop rest) :
    parseNumBody neg (natToDec n ++ rest) =
      some (.int (if neg then -(n : Int) else (n : Int)), rest) := by
  by_cases hz : n = 0
  · subst hz
    rw [show natToDec 0 = ['0'] from by decide]
    simp only [List.cons_append, List.nil_append]
    rw [parseNumBody, if_pos rfl, numTail_int _ _ _ h,
      show decVal ['0'] = 0 from by decide]
  · obtain ⟨d, ds, heq, hdig, hnz⟩ := natToDec_head n
    rw [heq]
    simp only [List.cons_append]
    rw [parseNumBody]
    rw [if_neg (hnz (by omega)), if_pos hdig]
    have hdsdig : ∀ c ∈ ds, c.isDigit = true := by
      intro c hc
      exact natToDec_digits n c (by rw [heq]; simp [hc])
    rw [parseDigits_run ds hdsdig rest h]
    dsimp only
    rw [numTail_int _ _ _ h]
    have hdec : decVal (d :: ds) = n := by
      have := decVal_natToDec n
      rw [heq] at this
      exact this
    rw [hdec]

theorem parseNumber_intToDec (i : Int) (rest : List Char) (h : numStop rest) :
    parseNumber (intToDec i ++ rest) = some (.int i, rest) := by
  by_cases hneg : i < 0
  · rw [intToDec, if_pos hneg]
    simp only [List.cons_append]
    rw [parseNumber, if_pos rfl, parseNumBody_natToDec true _ _ h]
    have habs : -(i.natAbs : Int) = i := by omega
    rw [if_pos rfl, habs]
  · rw [intToDec, if_neg hneg]
    obtain ⟨d, ds, heq, hdig, _⟩ := natToDec_head i.natAbs
    rw [heq]
    simp only [List.cons_append]
    rw [parseNumber]
    have hnd : ¬d = '-' := by
      have h1 := isDigit_toNat hdig
      have h2 : '-'.toNat = 45 := by decide
      exact toNat_ne (by omega)
    rw [if_neg hnd]
    rw [show d :: (ds ++ rest) = (d :: ds) ++ rest from rfl, ← heq,
      parseNumBody_natToDec false _ _ h]
    have habs : (i.natAbs : Int) = i := by omega
    rw [if_neg (by simp), habs]

/-! ## `parseVal` on rendered scalars -/

/-- One-step unfolding of `parseVal` on a cons cell. -/
theorem parseVal_cons (f : Nat) (c : Char) (rest : List Char) :
    parseVal (f + 1) (c :: rest) =
      (if c = lbrace then parseObjStart f rest
       else if c = '[' then parseArrStart f rest
       else if c = '"' then (fun p => (PyVal.str ⟨p.1⟩, p.2)) <$> parseStrBody rest
       else if c = 't' then (fun r => ((.bool true : PyVal), r)) <$> litTail ['r', 'u', 'e'] rest
       else if c = 'f' then
         (fun r => ((.bool false : PyVal), r)) <$> litTail ['a', 'l', 's', 'e'] rest
       else if c = 'n' then (fun r => ((.null : PyVal), r)) <$> litTail ['u', 'l', 'l'] rest
       else if c = 'N' then (fun r => ((.float "nan" : PyVal), r)) <$> litTail ['a', 'N'] rest
       else if c = 'I' then
         (fun r => ((.float "inf" : PyVal), r)) <$>
           litTail ['n', 'f', 'i', 'n', 'i', 't', 'y'] rest
       else
         match rest with
         | i :: rest2 =>
           if c = '-' ∧ i = 'I' then
             (fun r => ((.float "-inf" : PyVal), r)) <$>
               litTail ['n', 'f', 'i', 'n', 'i', 't', 'y'] rest2
           else parseNumber (c :: i :: rest2)
         | [] => parseNumber [c]) := by
  rw [parseVal.eq_def]

theorem parseVal_jsonQuote (s : String) (rest : List Char) (f : Nat) (hf : 1 ≤ f) :
    parseVal f (jsonQuote s ++ rest) = some (.str s, rest) := by
  obtain ⟨f', rfl⟩ : ∃ f', f = f' + 1 := ⟨f - 1, by omega⟩
  rw [jsonQuote]
  simp only [List.cons_append, List.append_assoc, List.singleton_append]
  rw [parseVal_cons, if_neg (by decide), if_neg (by decide), if_pos rfl,
    parseStrBody_render]
  rfl

theorem parseVal_intToDec (i : Int) (rest : List Char) (f : Nat) (hf : 1 ≤ f)
    (h : numStop rest) : parseVal f (intToDec i ++ rest) = some (.int i, rest) := by
  obtain ⟨f', rfl⟩ : ∃ f', f = f' + 1 := ⟨f - 1, by omega⟩
  by_cases hneg : i < 0
  · obtain ⟨d, ds, heq, hdig, _⟩ := natToDec_head i.natAbs
    have hdt := isDigit_toNat hdig
    rw [intToDec, if_pos hneg, heq]
    simp only [List.cons_append]
    rw [parseVal_cons]
    rw [if_neg (by decide), if_neg (by decide), if_neg (by decide), if_neg (by decide),
      if_neg (by decide), if_neg (by decide), if_neg (by decide), if_neg (by decide)]
    have hdI : ¬('-' = '-' ∧ d = 'I') := by
      rintro ⟨-, hdi⟩
      have h73 : 'I'.toNat = 73 := by decide
      exact toNat_ne (by omega) hdi
    show (if ('-' = '-' ∧ d = 'I') then
            (fun r => ((.float "-inf" : PyVal), r)) <$>
              litTail ['n', 'f', 'i', 'n', 'i', 't', 'y'] (ds ++ rest)
          else parseNumber ('-' :: d :: (ds ++ rest))) = some (.int i, rest)
    rw [if_neg hdI]
    have hres := parseNumber_intToDec i rest h
    rw [intToDec, if_pos hneg, heq] at hres
    simpa using hres
  · obtain ⟨d, ds, heq, hdig, _⟩ := natToDec_head i.natAbs
    have hdt := isDigit_toNat hdig
    have hi : intToDec i = d :: ds := by rw [intToDec, if_neg hneg, heq]
    have hne : ∀ (x : Char), x.toNat < 48 ∨ 57 < x.toNat → ¬d = x := by
      intro x hx he
      exact toNat_ne (by omega) he
    rw [hi]
    simp only [List.cons_append]
    rw [parseVal_cons]
    rw [if_neg (hne lbrace (by decide)), if_neg (hne '[' (by decide)),
      if_neg (hne '"' (by decide)), if_neg (hne 't' (by decide)),
      if_neg (hne 'f' (by decide)), if_neg (hne 'n' (by decide)),
      if_neg (hne 'N' (by decide)), if_neg (hne 'I' (by decide))]
    have hres := parseNumber_intToDec i rest h
    rw [hi] at hres
    rcases hsh : ds ++ rest with _ | ⟨i2, rest2⟩
    · show parseNumber [d] = some (.int i, rest)
      obtain ⟨hds, hrest⟩ := List.append_eq_nil.mp hsh
      subst hds hrest
      simpa using hres
    · show (if (d = '-' ∧ i2 = 'I') then
              (fun r => ((.float "-inf" : PyVal), r)) <$>
                litTail ['n', 'f', 'i', 'n', 'i', 't', 'y'] rest2
            else parseNumber (d :: i2 :: rest2)) = some (.int i, rest)
      rw [if_neg (by rintro ⟨hd45, -⟩; exact hne '-' (by decide) hd45)]
      rw [show d :: i2 :: rest2 = d :: (ds ++ rest) from by rw [hsh]]
      simpa using hres

/-! ## Objects and arrays: rendered text of entries and elements -/

/-- The input begins with an entry/element separator of the renderer. -/
def sepRest : List Char → Prop
  | c :: _ => c = ',' ∨ c = '\n'
  | [] => False

/-- The input begins with a non-whitespace character. -/
def notWsHead : List Char → Prop
  | c :: _ => isWsChar c = false
  | [] => False

/-- The members of a rendered JSON object after the first entry's
indentation, each item carrying its key, rendered value, and parsed value;
includes the closing line and brace. -/
def membersText (d : Nat) : List (String × List Char × PyVal) → List Char
  | [] => []
  | [it] => jsonQuote it.1 ++ (':' :: ' ' :: (it.2.1 ++ ('\n' :: sp (4 * d) ++ [rbrace])))
  | it :: it2 :: its =>
    jsonQuote it.1 ++
      (':' :: ' ' :: (it.2.1 ++ (',' :: '\n' :: (sp (4 * (d + 1)) ++ membersText d (it2 :: its)))))

/-- A rendered JSON object from items. -/
def objText (d : Nat) (items : List (String × List Char × PyVal)) : List Char :=
  match items with
  | [] => [lbrace, rbrace]
  | _ => lbrace :: '\n' :: (sp (4 * (d + 1)) ++ membersText d items)

/-- The elements of a rendered JSON array after the first element's
indentation, each item carrying its rendered and parsed value; includes the
closing line and bracket. -/
def elemsText (d : Nat) : List (List Char × PyVal) → List Char
  | [] => []
  | [it] => it.1 ++ ('\n' :: sp (4 * d) ++ [']'])
  | it :: it2 :: its => it.1 ++ (',' :: '\n' :: (sp (4 * (d + 1)) ++ elemsText d (it2 :: its)))

/-- A rendered JSON array from items. -/
def arrText (d : Nat) (items : List (List Char × PyVal)) : List Char :=
  match items with
  | [] => ['[', ']']
  | _ => '[' :: '\n' :: (sp (4 * (d + 1)) ++ elemsText d items)

theorem renderObjEntries_objText (d : Nat) (items : List (String × List Char × PyVal)) :
    renderObjEntries d (items.map fun it => (jsonQuote it.1, it.2.1)) = objText d items := by
  match items with
  | [] => rfl
  | it :: its =>
    rw [objText]
    simp only [List.map_cons]
    rw [renderObjEntries]
    simp only [List.cons.injEq, true_and]
    -- reduce to the joinSep/membersText relation
    suffices h : ∀ (jt : String × List Char × PyVal) (jts : List (String × List Char × PyVal)),
        joinSep [',', '\n']
          (((jt :: jts).map fun it => (jsonQuote it.1, it.2.1)).map fun e =>
            sp (4 * (d + 1)) ++ e.1 ++ ':' :: ' ' :: e.2) ++
          '\n' :: sp (4 * d) ++ [rbrace] =
          sp (4 * (d + 1)) ++ membersText d (jt :: jts) by
      exact h it its
    intro jt jts
    induction jts generalizing jt with
    | nil =>
      simp only [List.map_cons, List.map_nil, joinSep, membersText]
      simp [List.append_assoc]
    | cons jt2 jts ih =>
      have hih := ih jt2
      simp only [List.map_cons] at hih
      simp only [List.map_cons, joinSep, membersText]
      rw [← hih]
      simp [List.append_assoc]
    all_goals simp

theorem renderArrElems_arrText (d : Nat) (items : List (List Char × PyVal)) :
    renderArrElems d (items.map fun it => it.1) = arrText d items := by
  match items with
  | [] => rfl
  | it :: its =>
    rw [arrText]
    simp only [List.map_cons]
    rw [renderArrElems]
    simp only [List.cons.injEq, true_and]
    suffices h : ∀ (jt : List Char × PyVal) (jts : List (List Char × PyVal)),
        joinSep [',', '\n']
          (((jt :: jts).map fun it => it.1).map fun e => sp (4 * (d + 1)) ++ e) ++
          '\n' :: sp (4 * d) ++ [']'] =
          sp (4 * (d + 1)) ++ elemsText d (jt :: jts) by
      exact h it its
    intro jt jts
    induction jts generalizing jt with
    | nil =>
      simp only [List.map_cons, List.map_nil, joinSep, elemsText]
      simp [List.append_assoc]
    | cons jt2 jts ih =>
      have hih := ih jt2
      simp only [List.map_cons] at hih
      simp only [List.map_cons, joinSep, elemsText]
      rw [← hih]
      simp [List.append_assoc]
    all_goals simp

/-! ## Parsing rendered objects and arrays -/

theorem jsonQuote_append (s : String) (X : List Char) :
    jsonQuote s ++ X = '"' :: (s.data.flatMap escChar ++ '"' :: X) := by
  simp [jsonQuote]

/-- One-step unfolding of `parseMembers` on a cons cell. -/
theorem parseMembers_cons (f : Nat) (acc : List (PyKey × PyVal)) (c : Char)
    (r : List Char) :
    parseMembers (f + 1) acc (c :: r) =
      (if c = '"' then
        (parseStrBody r).bind fun p1 =>
          match skipWs p1.2 with
          | [] => none
          | c3 :: r4 =>
            if c3 = ':' then
              (parseVal f (skipWs r4)).bind fun p2 =>
                match skipWs p2.2 with
                | [] => none
                | c6 :: r7 =>
                  if c6 = ',' then parseMembers f (setKey acc (.str ⟨p1.1⟩) p2.1) (skipWs r7)
                  else if c6 = rbrace then some (.obj (setKey acc (.str ⟨p1.1⟩) p2.1), r7)
                  else none
            else none
      else none) := by
  rw [parseMembers.eq_def]

/-- One-step unfolding of `parseElems`. -/
theorem parseElems_succ (f : Nat) (acc : List PyVal) (cs : List Char) :
    parseElems (f + 1) acc cs =
      ((parseVal f cs).bind fun p =>
        match skipWs p.2 with
        | [] => none
        | c :: r2 =>
          if c = ',' then parseElems f (acc ++ [p.1]) (skipWs r2)
          else if c = ']' then some (.list (acc ++ [p.1]), r2)
          else none) := by
  rw [parseElems.eq_def]

/-- One-step unfolding of `parseObjStart`. -/
theorem parseObjStart_succ (f : Nat) (cs : List Char) :
    parseObjStart (f + 1) cs =
      (match skipWs cs with
       | [] => none
       | c :: rest => if c = rbrace then some (.obj [], rest) else parseMembers f [] (c :: rest)) := by
  rw [parseObjStart.eq_def]

/-- One-step unfolding of `parseArrStart`. -/
theorem parseArrStart_succ (f : Nat) (cs : List Char) :
    parseArrStart (f + 1) cs =
      (match skipWs cs with
       | [] => none
       | c :: rest => if c = ']' then some (.list [], rest) else parseElems f [] (c :: rest)) := by
  rw [parseArrStart.eq_def]

theorem membersText_quote_head (d : Nat) (it : String × List Char × PyVal)
    (its : List (String × List Char × PyVal)) :
    ∃ t, membersText d (it :: its) = '"' :: t := by
  match its with
  | [] =>
    rw [membersText, jsonQuote_append]
    exact ⟨_, rfl⟩
  | it2 :: its =>
    rw [membersText, jsonQuote_append]
    exact ⟨_, rfl⟩

/-- The bundled hypothesis on one rendered value: its head is not
whitespace and it parses to its value before any separator-headed rest. -/
def RendersTo (rv : List Char) (v : PyVal) : Prop :=
  notWsHead rv ∧
    ∀ f r, rv.length < f → sepRest r → parseVal f (rv ++ r) = some (v, r)

theorem parseMembers_membersText (d : Nat) (items : List (String × List Char × PyVal))
    (hvals : ∀ it ∈ items, RendersTo it.2.1 it.2.2) :
    ∀ (acc : List (PyKey × PyVal)) (rest : List Char) (f : Nat),
      items ≠ [] → (membersText d items).length < f →
      parseMembers f acc (membersText d items ++ rest) =
        some (.obj (items.foldl (fun a it => setKey a (.str it.1) it.2.2) acc), rest) := by
  induction items with
  | nil => intro acc rest f hne _; exact absurd rfl hne
  | cons it its ih =>
    intro acc rest f _ hf
    obtain ⟨f0, rfl⟩ : ∃ f0, f = f0 + 1 := ⟨f - 1, by omega⟩
    obtain ⟨hws, hval⟩ := hvals it (by simp)
    obtain ⟨c0, rv0, hrv⟩ : ∃ c0 rv0, it.2.1 = c0 :: rv0 := by
      match hx : it.2.1, hws with
      | c0 :: rv0, _ => exact ⟨c0, rv0, rfl⟩
    have hws0 : isWsChar c0 = false := by
      have h0 := hws
      rw [hrv] at h0
      exact h0
    have hskip : ∀ X, skipWs (' ' :: (it.2.1 ++ X)) = it.2.1 ++ X := by
      intro X
      rw [show skipWs (' ' :: (it.2.1 ++ X)) = skipWs (it.2.1 ++ X) from by
          simp [skipWs, isWsChar],
        hrv, List.cons_append, skipWs_not_ws hws0, ← List.cons_append, ← hrv]
    match its with
    | [] =>
      have hlen : it.2.1.length < f0 := by
        rw [membersText] at hf
        simp only [jsonQuote, List.length_append, List.length_cons] at hf
        omega
      rw [membersText, jsonQuote_append, List.cons_append, parseMembers_cons, if_pos rfl]
      simp only [List.cons_append, List.append_assoc, List.nil_append]
      rw [parseStrBody_render]
      simp only [Option.some_bind]
      rw [skipWs_not_ws (by decide)]
      conv_lhs => whnf
      rw [hskip]
      rw [hval f0 ('\n' :: (sp (4 * d) ++ rbrace :: rest)) hlen (Or.inr rfl)]
      simp only [Option.some_bind]
      rw [skipWs_nl, skipWs_sp, skipWs_not_ws (by decide)]
      conv_lhs => whnf
      simp [List.foldl]
    | it2 :: its2 =>
      have hlen : it.2.1.length < f0 := by
        rw [membersText] at hf
        simp only [jsonQuote, List.length_append, List.length_cons] at hf
        omega
      have hlen2 : (membersText d (it2 :: its2)).length < f0 := by
        rw [membersText] at hf
        simp only [jsonQuote, List.length_append, List.length_cons, sp,
          List.length_replicate] at hf
        omega
      rw [membersText, jsonQuote_append, List.cons_append, parseMembers_cons, if_pos rfl]
      simp only [List.cons_append, List.append_assoc, List.nil_append]
      rw [parseStrBody_render]
      simp only [Option.some_bind]
      rw [skipWs_not_ws (by decide)]
      conv_lhs => whnf
      rw [hskip]
      rw [hval f0 (',' :: '\n' :: (sp (4 * (d + 1)) ++ (membersText d (it2 :: its2) ++ rest)))
        hlen (Or.inl rfl)]
      simp only [Option.some_bind]
      rw [skipWs_not_ws (by decide)]
      conv_lhs => whnf
      rw [skipWs_nl, skipWs_sp]
      obtain ⟨t, ht⟩ := membersText_quote_head d it2 its2
      rw [show skipWs (membersText d (it2 :: its2) ++ rest) =
          membersText d (it2 :: its2) ++ rest from by
        rw [ht, List.cons_append, skipWs_not_ws (by decide)]]
      rw [ih (fun x hx => hvals x (by simp [hx])) _ rest f0 (by simp) hlen2]
      simp [List.foldl]

theorem elemsText_head (d : Nat) (it : List Char × PyVal) (its : List (List Char × PyVal))
    (h : notWsHead it.1) : ∃ c t, isWsChar c = false ∧ elemsText d (it :: its) = c :: t := by
  obtain ⟨c0, rv0, hrv⟩ : ∃ c0 rv0, it.1 = c0 :: rv0 := by
    match hx : it.1, h with
    | c0 :: rv0, _ => exact ⟨c0, rv0, rfl⟩
  have hws0 : isWsChar c0 = false := by
    have h0 := h
    rw [hrv] at h0
    exact h0
  match its with
  | [] =>
    rw [elemsText, hrv, List.cons_append]
    exact ⟨c0, _, hws0, rfl⟩
  | it2 :: its2 =>
    rw [elemsText, hrv, List.cons_append]
    exact ⟨c0, _, hws0, rfl⟩

theorem parseElems_elemsText (d : Nat) (items : List (List Char × PyVal))
    (hvals : ∀ it ∈ items, RendersTo it.1 it.2) :
    ∀ (acc : List PyVal) (rest : List Char) (f : Nat),
      items ≠ [] → (elemsText d items).length < f →
      parseElems f acc (elemsText d items ++ rest) =
        some (.list (acc ++ items.map (fun it => it.2)), rest) := by
  induction items with
  | nil => intro acc rest f hne _; exact absurd rfl hne
  | cons it its ih =>
    intro acc rest f _ hf
    obtain ⟨f0, rfl⟩ : ∃ f0, f = f0 + 1 := ⟨f - 1, by omega⟩
    obtain ⟨hws, hval⟩ := hvals it (by simp)
    match its with
    | [] =>
      have hlen : it.1.length < f0 := by
        rw [elemsText] at hf
        simp only [List.length_append, List.length_cons] at hf
        omega
      rw [elemsText, parseElems_succ]
      simp only [List.cons_append, List.append_assoc, List.nil_append]
      rw [hval f0 ('\n' :: (sp (4 * d) ++ ']' :: rest)) hlen (Or.inr rfl)]
      simp only [Option.some_bind]
      rw [skipWs_nl, skipWs_sp, skipWs_not_ws (by decide)]
      conv_lhs => whnf
      simp

    | it2 :: its2 =>
      have hlen : it.1.length < f0 := by
        rw [elemsText] at hf
        simp only [List.length_append, List.length_cons] at hf
        omega
      have hlen2 : (elemsText d (it2 :: its2)).length < f0 := by
        rw [elemsText] at hf
        simp only [List.length_append, List.length_cons, sp, List.length_replicate] at hf
        omega
      rw [elemsText, parseElems_succ]
      simp only [List.cons_append, List.append_assoc, List.nil_append]
      rw [hval f0 (',' :: '\n' :: (sp (4 * (d + 1)) ++ (elemsText d (it2 :: its2) ++ rest)))
        hlen (Or.inl rfl)]
      simp only [Option.some_bind]
      rw [skipWs_not_ws (by decide)]
      conv_lhs => whnf
      rw [skipWs_nl, skipWs_sp]
      obtain ⟨c1, t, hws1, ht⟩ := elemsText_head d it2 its2 (hvals it2 (by simp)).1
      rw [show skipWs (elemsText d (it2 :: its2) ++ rest) =
          elemsText d (it2 :: its2) ++ rest from by
        rw [ht, List.cons_append, skipWs_not_ws hws1]]
      rw [ih (fun x hx => hvals x (by simp [hx])) _ rest f0 (by simp) hlen2]
      simp

theorem objText_cons (d : Nat) (it : String × List Char × PyVal)
    (its : List (String × List Char × PyVal)) :
    objText d (it :: its) = lbrace :: '\n' :: (sp (4 * (d + 1)) ++ membersText d (it :: its)) :=
  rfl

theorem arrText_cons (d : Nat) (it : List Char × PyVal) (its : List (List Char × PyVal)) :
    arrText d (it :: its) = '[' :: '\n' :: (sp (4 * (d + 1)) ++ elemsText d (it :: its)) :=
  rfl

theorem parseVal_objText (d : Nat) (items : List (String × List Char × PyVal))
    (hvals : ∀ it ∈ items, RendersTo it.2.1 it.2.2) (rest : List Char) (f : Nat)
    (hf : (objText d items).length < f) :
    parseVal f (objText d items ++ rest) =
      some (.obj (items.foldl (fun a it => setKey a (.str it.1) it.2.2) []), rest) := by
  obtain ⟨f0, rfl⟩ : ∃ f0, f = f0 + 1 := ⟨f - 1, by omega⟩
  match items with
  | [] =>
    rw [objText]
    simp only [List.cons_append, List.nil_append]
    rw [parseVal_cons, if_pos rfl]
    obtain ⟨f1, rfl⟩ : ∃ f1, f0 = f1 + 1 := ⟨f0 - 1, by
      rw [objText] at hf
      simp only [List.length_cons, List.length_nil] at hf
      omega⟩
    rw [parseObjStart_succ, skipWs_not_ws (by decide)]
    conv_lhs => whnf
    rfl
  | it :: its =>
    have hne : (it :: its : List _) ≠ [] := by simp
    rw [objText_cons]
    simp only [List.cons_append, List.append_assoc]
    rw [parseVal_cons, if_pos rfl]
    obtain ⟨f1, rfl⟩ : ∃ f1, f0 = f1 + 1 := ⟨f0 - 1, by
      rw [objText_cons] at hf
      simp only [List.length_cons, List.length_append] at hf
      omega⟩
    rw [parseObjStart_succ, skipWs_nl, skipWs_sp]
    obtain ⟨t, ht⟩ := membersText_quote_head d it its
    rw [show skipWs (membersText d (it :: its) ++ rest) =
        membersText d (it :: its) ++ rest from by
      rw [ht, List.cons_append, skipWs_not_ws (by decide)]]
    rw [ht, List.cons_append]
    show (if ('"' : Char) = rbrace then some ((.obj [] : PyVal), t ++ rest)
          else parseMembers f1 [] ('"' :: (t ++ rest))) = _
    rw [if_neg (by decide), ← List.cons_append, ← ht]
    rw [parseMembers_membersText d (it :: its) hvals [] rest f1 hne (by
      rw [objText_cons] at hf
      simp only [List.length_cons, List.length_append, sp, List.length_replicate] at hf
      omega)]

theorem elemsText_strings_head (d : Nat) (it : List Char × PyVal)
    (its : List (List Char × PyVal)) (h : ∃ t, it.1 = '"' :: t) :
    ∃ t, elemsText d (it :: its) = '"' :: t := by
  obtain ⟨t0, ht0⟩ := h
  match its with
  | [] =>
    rw [elemsText, ht0, List.cons_append]
    exact ⟨_, rfl⟩
  | it2 :: its2 =>
    rw [elemsText, ht0, List.cons_append]
    exact ⟨_, rfl⟩

theorem parseVal_arrText (d : Nat) (items : List (List Char × PyVal))
    (hvals : ∀ it ∈ items, RendersTo it.1 it.2)
    (hq : ∀ it ∈ items, ∃ t, it.1 = '"' :: t) (rest : List Char) (f : Nat)
    (hf : (arrText d items).length < f) :
    parseVal f (arrText d items ++ rest) =
      some (.list (items.map fun it => it.2), rest) := by
  obtain ⟨f0, rfl⟩ : ∃ f0, f = f0 + 1 := ⟨f - 1, by omega⟩
  match items with
  | [] =>
    rw [arrText]
    simp only [List.cons_append, List.nil_append]
    rw [parseVal_cons, if_neg (by decide), if_pos rfl]
    obtain ⟨f1, rfl⟩ : ∃ f1, f0 = f1 + 1 := ⟨f0 - 1, by
      rw [arrText] at hf
      simp only [List.length_cons, List.length_nil] at hf
      omega⟩
    rw [parseArrStart_succ, skipWs_not_ws (by decide)]
    conv_lhs => whnf
    rfl
  | it :: its =>
    have hne : (it :: its : List _) ≠ [] := by simp
    rw [arrText_cons]
    simp only [List.cons_append, List.append_assoc]
    rw [parseVal_cons, if_neg (by decide), if_pos rfl]
    obtain ⟨f1, rfl⟩ : ∃ f1, f0 = f1 + 1 := ⟨f0 - 1, by
      rw [arrText_cons] at hf
      simp only [List.length_cons, List.length_append] at hf
      omega⟩
    rw [parseArrStart_succ, skipWs_nl, skipWs_sp]
    obtain ⟨t, ht⟩ := elemsText_strings_head d it its (hq it (by simp))
    rw [show skipWs (elemsText d (it :: its) ++ rest) =
        elemsText d (it :: its) ++ rest from by
      rw [ht, List.cons_append, skipWs_not_ws (by decide)]]
    rw [ht, List.cons_append]
    show (if ('"' : Char) = ']' then some ((.list [] : PyVal), t ++ rest)
          else parseElems f1 [] ('"' :: (t ++ rest))) = _
    rw [if_neg (by decide), ← List.cons_append, ← ht]
    rw [parseElems_elemsText d (it :: its) hvals [] rest f1 hne (by
      rw [arrText_cons] at hf
      simp only [List.length_cons, List.length_append, sp, List.length_replicate] at hf
      omega)]
    simp

/-! ## Rendered scalar values and key folding -/

theorem sepRest_numStop {r : List Char} (h : sepRest r) : numStop r := by
  cases r with
  | nil => exact h.elim
  | cons c t =>
    rcases h with h | h <;> subst h <;>
      exact ⟨by decide, by decide, by decide, by decide⟩

theorem digit_not_ws {c : Char} (h1 : 48 ≤ c.toNat) (h2 : c.toNat ≤ 57) :
    isWsChar c = false := by
  have hsp : (' ').toNat = 32 := by decide
  have htb : ('\t').toNat = 9 := by decide
  have hnl : ('\n').toNat = 10 := by decide
  have hcr : ('\r').toNat = 13 := by decide
  simp only [isWsChar, Bool.or_eq_false_iff]
  refine ⟨⟨⟨?_, ?_⟩, ?_⟩, ?_⟩ <;>
    · simp only [decide_eq_false_iff_not]
      exact toNat_ne (by omega)

theorem rendersTo_str (s : String) : RendersTo (jsonQuote s) (.str s) := by
  refine ⟨?_, ?_⟩
  · show isWsChar '"' = false
    rfl
  · intro f r hf _
    exact parseVal_jsonQuote s r f (by omega)

theorem intToDec_head (i : Int) :
    ∃ c cs, intToDec i = c :: cs ∧ isWsChar c = false ∧ c ≠ '_' := by
  by_cases hneg : i < 0
  · refine ⟨'-', natToDec i.natAbs, by rw [intToDec, if_pos hneg], by decide, by decide⟩
  · obtain ⟨d, ds, heq, hdig, _⟩ := natToDec_head i.natAbs
    have := isDigit_toNat hdig
    refine ⟨d, ds, by rw [intToDec, if_neg hneg, heq], digit_not_ws this.1 this.2, ?_⟩
    have h95 : '_'.toNat = 95 := by decide
    exact toNat_ne (by omega)

theorem rendersTo_int (i : Int) : RendersTo (intToDec i) (.int i) := by
  obtain ⟨c, cs, heq, hws, _⟩ := intToDec_head i
  constructor
  · rw [heq]
    exact hws
  · intro f r hf hr
    exact parseVal_intToDec i r f (by omega) (sepRest_numStop hr)

/-- `setKey` on an absent key appends. -/
theorem setKey_absent (acc : List (PyKey × PyVal)) (k : PyKey) (v : PyVal)
    (h : ∀ p ∈ acc, p.1 ≠ k) : setKey acc k v = acc ++ [(k, v)] := by
  induction acc with
  | nil => rfl
  | cons p acc ih =>
    rw [setKey, if_neg (h p (by simp))]
    rw [ih (fun q hq => h q (by simp [hq]))]
    rfl

/-- Folding `setKey` over fresh, pairwise-distinct keys appends the
key-value pairs in order. -/
theorem foldl_setKey_append (key : (String × List Char × PyVal) → PyKey)
    (items : List (String × List Char × PyVal)) :
    ∀ acc : List (PyKey × PyVal),
      ((items.map key).Nodup) → (∀ it ∈ items, ∀ p ∈ acc, p.1 ≠ key it) →
      items.foldl (fun a it => setKey a (key it) it.2.2) acc =
        acc ++ items.map (fun it => (key it, it.2.2)) := by
  induction items with
  | nil => intro acc _ _; simp
  | cons it its ih =>
    intro acc hnd hfresh
    rw [List.map_cons, List.nodup_cons] at hnd
    have hfr : ∀ x ∈ its, ∀ p ∈ acc ++ [(key it, it.2.2)], p.1 ≠ key x := by
      intro x hx p hp
      rcases List.mem_append.mp hp with hp | hp
      · exact hfresh x (by simp [hx]) p hp
      · simp only [List.mem_singleton] at hp
        subst hp
        show key it ≠ key x
        intro hcon
        exact hnd.1 (by rw [hcon]; exact List.mem_map_of_mem key hx)
    simp only [List.foldl_cons]
    rw [setKey_absent acc (key it) it.2.2 (hfresh it (by simp))]
    rw [ih (acc ++ [(key it, it.2.2)]) hnd.2 hfr]
    simp

/-! ## `int(str)` on rendered integers -/

theorem not_pyIntWs {c : Char} (h1 : 45 ≤ c.toNat) (h2 : c.toNat ≤ 57) :
    pyIntWs c = false := by
  simp only [pyIntWs, Bool.or_eq_false_iff, Bool.and_eq_false_iff,
    beq_eq_false_iff_ne, decide_eq_false_iff_not]
  omega

theorem intToDec_range (i : Int) : ∀ c ∈ intToDec i, 45 ≤ c.toNat ∧ c.toNat ≤ 57 := by
  intro c hc
  rw [intToDec] at hc
  by_cases hneg : i < 0
  · rw [if_pos hneg] at hc
    rcases List.mem_cons.mp hc with hc | hc
    · subst hc
      exact ⟨by decide, by decide⟩
    · have := isDigit_toNat (natToDec_digits _ c hc)
      omega
  · rw [if_neg hneg] at hc
    have := isDigit_toNat (natToDec_digits _ c hc)
    omega

theorem dropWhile_all_false {α : Type} (p : α → Bool) :
    ∀ l : List α, (∀ c ∈ l, p c = false) → l.dropWhile p = l
  | [], _ => rfl
  | c :: t, h => by
    rw [List.dropWhile_cons, if_neg (by simp [h c (by simp)])]

theorem strip_id (l : List Char) (h : ∀ c ∈ l, pyIntWs c = false) :
    ((l.dropWhile pyIntWs).reverse.dropWhile pyIntWs).reverse = l := by
  rw [dropWhile_all_false pyIntWs l h,
    dropWhile_all_false pyIntWs l.reverse (by intro c hc; exact h c (List.mem_reverse.mp hc)),
    List.reverse_reverse]

theorem pyIntGo_digit (acc : Nat) (c : Char) (rest : List Char)
    (hc : c.isDigit = true) :
    pyIntGo acc (c :: rest) = pyIntGo (acc * 10 + (c.toNat - 48)) rest := by
  have hne : c ≠ '_' := by
    intro h
    rw [h] at hc
    exact absurd hc (by decide)
  rw [pyIntGo.eq_def]
  simp [hne, hc]

theorem pyIntGo_digits (ds : List Char) (hds : ∀ c ∈ ds, c.isDigit = true) :
    ∀ acc, pyIntGo acc ds =
      some (ds.foldl (fun a c => a * 10 + (c.toNat - 48)) acc) := by
  induction ds with
  | nil => intro acc; rfl
  | cons c rest ih =>
    intro acc
    have hc : c.isDigit = true := hds c (by simp)
    rw [pyIntGo_digit acc c rest hc,
      ih (fun d hd => hds d (by simp [hd])) (acc * 10 + (c.toNat - 48))]
    rfl

theorem pyIntDigits_natToDec (n : Nat) : pyIntDigits (natToDec n) = some n := by
  obtain ⟨d, ds, heq, hdig, _⟩ := natToDec_head n
  have hall := natToDec_digits n
  rw [heq] at hall
  rw [heq, pyIntDigits, if_pos (hall d (by simp)),
    pyIntGo_digits ds (fun c hc => hall c (by simp [hc])) (d.toNat - 48)]
  congr 1
  have hdv : decVal (d :: ds) = n := by
    rw [← heq]
    exact decVal_natToDec n
  simpa [decVal] using hdv

theorem pyInt_intToDec (i : Int) : pyInt (String.mk (intToDec i)) = some i := by
  have hall : ∀ c ∈ intToDec i, pyIntWs c = false := by
    intro c hc
    obtain ⟨h1, h2⟩ := intToDec_range i c hc
    exact not_pyIntWs h1 h2
  show pyIntCore (((intToDec i).dropWhile pyIntWs).reverse.dropWhile pyIntWs).reverse = some i
  rw [strip_id _ hall]
  by_cases hneg : i < 0
  · rw [intToDec, if_pos hneg, pyIntCore, if_neg (by decide), if_pos rfl,
      pyIntDigits_natToDec]
    show some (-(i.natAbs : Int)) = some i
    congr 1
    omega
  · obtain ⟨d, ds, heq, hdig, _⟩ := natToDec_head i.natAbs
    have hdt := isDigit_toNat hdig
    have h43 : ('+').toNat = 43 := by decide
    have h45 : ('-').toNat = 45 := by decide
    rw [intToDec, if_neg hneg, heq, pyIntCore,
      if_neg (toNat_ne (by omega)), if_neg (toNat_ne (by omega)), ← heq,
      pyIntDigits_natToDec]
    show some ((i.natAbs : Nat) : Int) = some i
    congr 1
    omega

/-! ## Plain-ASCII escaping and composite renderings -/

theorem escChar_plain {c : Char} (h1 : 35 ≤ c.toNat) (h2 : c.toNat ≤ 91) :
    escChar c = [c] := by
  have hq : ('"').toNat = 34 := by decide
  have hb : ('\\').toNat = 92 := by decide
  have hn : ('\n').toNat = 10 := by decide
  have hr : ('\r').toNat = 13 := by decide
  have ht : ('\t').toNat = 9 := by decide
  rw [escChar, if_neg (toNat_ne (by omega)), if_neg (toNat_ne (by omega)),
    if_neg (toNat_ne (by omega)), if_neg (toNat_ne (by omega)),
    if_neg (toNat_ne (by omega)),
    if_neg (by simp only [beq_iff_eq]; omega),
    if_neg (by simp only [beq_iff_eq]; omega),
    if_neg (by omega), if_pos (by omega)]

theorem flatMap_escChar_id (l : List Char)
    (h : ∀ c ∈ l, 35 ≤ c.toNat ∧ c.toNat ≤ 91) : l.flatMap escChar = l := by
  induction l with
  | nil => rfl
  | cons c t ih =>
    rw [List.flatMap_cons, escChar_plain (h c (by simp)).1 (h c (by simp)).2,
      ih (fun d hd => h d (by simp [hd]))]
    rfl

theorem jsonQuote_ascii (l : List Char)
    (h : ∀ c ∈ l, 35 ≤ c.toNat ∧ c.toNat ≤ 91) :
    jsonQuote (String.mk l) = '"' :: l ++ ['"'] := by
  rw [jsonQuote]
  show '"' :: l.flatMap escChar ++ ['"'] = _
  rw [flatMap_escChar_id l h]

theorem jsonQuote_intToDec (i : Int) :
    jsonQuote (String.mk (intToDec i)) = '"' :: intToDec i ++ ['"'] := by
  apply jsonQuote_ascii
  intro c hc
  have := intToDec_range i c hc
  omega

theorem rendersTo_objText (d : Nat) (items : List (String × List Char × PyVal))
    (hvals : ∀ it ∈ items, RendersTo it.2.1 it.2.2)
    (hnd : (items.map fun it => PyKey.str it.1).Nodup) :
    RendersTo (objText d items)
      (.obj (items.map fun it => (PyKey.str it.1, it.2.2))) := by
  constructor
  · match items with
    | [] =>
      show isWsChar lbrace = false
      rfl
    | it :: its =>
      show isWsChar lbrace = false
      rfl
  · intro f r hf _
    rw [parseVal_objText d items hvals r f hf]
    congr 2
    have hfold := foldl_setKey_append (fun it => PyKey.str it.1) items [] hnd
      (by intro it _ p hp; exact absurd hp (List.not_mem_nil p))
    simpa using hfold

theorem rendersTo_arrText (d : Nat) (items : List (List Char × PyVal))
    (hvals : ∀ it ∈ items, RendersTo it.1 it.2)
    (hq : ∀ it ∈ items, ∃ t, it.1 = '"' :: t) :
    RendersTo (arrText d items) (.list (items.map fun it => it.2)) := by
  constructor
  · match items with
    | [] =>
      show isWsChar '[' = false
      rfl
    | it :: its =>
      show isWsChar '[' = false
      rfl
  · intro f r hf _
    exact parseVal_arrText d items hvals hq r f hf

/-! ## Each renderer is an `objText`/`arrText` and parses back -/

theorem jsonQuote_head (s : String) : ∃ t, jsonQuote s = '"' :: t :=
  ⟨s.data.flatMap escChar ++ ['"'], by rw [jsonQuote]; simp⟩

theorem nodup_pykey_str {ks : List String} (h : ks.Nodup) :
    (ks.map PyKey.str).Nodup :=
  h.map fun _ _ hab => PyKey.str.inj hab

theorem intToDec_inj {i j : Int} (h : intToDec i = intToDec j) : i = j := by
  have hi := pyInt_intToDec i
  rw [show (String.mk (intToDec i)) = String.mk (intToDec j) from by rw [h]] at hi
  rw [pyInt_intToDec j] at hi
  exact (Option.some.inj hi).symm

theorem renderTokenConfig_objText (d : Nat) (t : TokenConfig) :
    renderTokenConfig d t = objText d (tcItems t) := by
  rw [← renderObjEntries_objText]
  rfl

theorem rendersTo_tokenConfig (d : Nat) (t : TokenConfig) :
    RendersTo (renderTokenConfig d t) t.pyVal := by
  rw [renderTokenConfig_objText]
  have h := rendersTo_objText d (tcItems t) ?hvals ?hnd
  · exact h
  case hvals =>
    intro it hit
    simp only [tcItems, List.mem_cons, List.not_mem_nil, or_false] at hit
    rcases hit with h | h <;> subst h <;> exact rendersTo_int _
  case hnd =>
    show ([PyKey.str "transfer_limit", PyKey.str "eth_in_token"] : List PyKey).Nodup
    decide

theorem renderChainConfig_objText (d : Nat) (cc : ChainConfig) :
    renderChainConfig d cc = objText d (ccItems cc) := by
  rw [← renderObjEntries_objText]
  rfl

theorem rendersTo_chainConfig (d : Nat) (cc : ChainConfig) :
    RendersTo (renderChainConfig d cc) cc.pyVal := by
  rw [renderChainConfig_objText]
  have h := rendersTo_objText d (ccItems cc) ?hvals ?hnd
  · exact h
  case hvals =>
    intro it hit
    simp only [ccItems, List.mem_cons, List.not_mem_nil, or_false] at hit
    rcases hit with h | h | h <;> subst h <;> exact rendersTo_int _
  case hnd =>
    show ([PyKey.str "finality_period", PyKey.str "target_weight_ppm",
      PyKey.str "transfer_cost"] : List PyKey).Nodup
    decide

theorem renderStrDict_objText (d : Nat) (l : List (String × String)) :
    renderStrDict d l = objText d (strDictItems l) := by
  rw [← renderObjEntries_objText, renderStrDict, strDictItems]
  simp only [List.map_map]
  rfl

theorem rendersTo_strDict (d : Nat) (l : List (String × String))
    (hnd : (l.map Prod.fst).Nodup) :
    RendersTo (renderStrDict d l) (strDictVal l) := by
  rw [renderStrDict_objText]
  have h := rendersTo_objText d (strDictItems l) ?hvals ?hnd2
  · rw [show (strDictItems l).map (fun it => (PyKey.str it.1, it.2.2)) =
        l.map (fun p => (PyKey.str p.1, PyVal.str p.2)) from by
      simp only [strDictItems, List.map_map]; rfl] at h
    exact h
  case hvals =>
    intro it hit
    simp only [strDictItems, List.mem_map] at hit
    obtain ⟨p, _, hp⟩ := hit
    subst hp
    exact rendersTo_str _
  case hnd2 =>
    rw [show (strDictItems l).map (fun it => PyKey.str it.1) =
        (l.map Prod.fst).map PyKey.str from by
      simp only [strDictItems, List.map_map]; rfl]
    exact nodup_pykey_str hnd

theorem renderStrList_arrText (d : Nat) (xs : List String) :
    renderStrList d xs = arrText d (strListItems xs) := by
  rw [← renderArrElems_arrText, renderStrList, strListItems]
  simp only [List.map_map]
  rfl

theorem rendersTo_strList (d : Nat) (xs : List String) :
    RendersTo (renderStrList d xs) (strListVal xs) := by
  rw [renderStrList_arrText]
  have h := rendersTo_arrText d (strListItems xs) ?hvals ?hq
  · rw [show (strListItems xs).map (fun it => it.2) = xs.map PyVal.str from by
      simp only [strListItems, List.map_map]; rfl] at h
    exact h
  case hvals =>
    intro it hit
    simp only [strListItems, List.mem_map] at hit
    obtain ⟨s, _, hp⟩ := hit
    subst hp
    exact rendersTo_str _
  case hq =>
    intro it hit
    simp only [strListItems, List.mem_map] at hit
    obtain ⟨s, _, hp⟩ := hit
    subst hp
    exact jsonQuote_head s

theorem renderTokensDict_objText (d : Nat) (l : List (String × TokenConfig)) :
    renderTokensDict d l = objText d (tokensItems (d + 1) l) := by
  rw [← renderObjEntries_objText, renderTokensDict, tokensItems]
  simp only [List.map_map]
  rfl

theorem rendersTo_tokensDict (d : Nat) (l : List (String × TokenConfig))
    (hnd : (l.map Prod.fst).Nodup) :
    RendersTo (renderTokensDict d l) (tokensVal l) := by
  rw [renderTokensDict_objText]
  have h := rendersTo_objText d (tokensItems (d + 1) l) ?hvals ?hnd2
  · rw [show (tokensItems (d + 1) l).map (fun it => (PyKey.str it.1, it.2.2)) =
        l.map (fun p => (PyKey.str p.1, p.2.pyVal)) from by
      simp only [tokensItems, List.map_map]; rfl] at h
    exact h
  case hvals =>
    intro it hit
    simp only [tokensItems, List.mem_map] at hit
    obtain ⟨p, _, hp⟩ := hit
    subst hp
    exact rendersTo_tokenConfig (d + 1) p.2
  case hnd2 =>
    rw [show (tokensItems (d + 1) l).map (fun it => PyKey.str it.1) =
        (l.map Prod.fst).map PyKey.str from by
      simp only [tokensItems, List.map_map]; rfl]
    exact nodup_pykey_str hnd

theorem renderChainsDict_objText (d : Nat) (l : List (Int × ChainConfig)) :
    renderChainsDict d l = objText d (chainsItems (d + 1) l) := by
  rw [← renderObjEntries_objText, renderChainsDict, chainsItems]
  congr 1
  rw [List.map_map]
  apply List.map_congr_left
  intro p _
  show ('"' :: intToDec p.1 ++ ['"'], renderChainConfig (d + 1) p.2) =
    (jsonQuote (String.mk (intToDec p.1)), renderChainConfig (d + 1) p.2)
  rw [jsonQuote_intToDec]

theorem rendersTo_chainsDict (d : Nat) (l : List (Int × ChainConfig))
    (hnd : (l.map Prod.fst).Nodup) :
    RendersTo (renderChainsDict d l) (chainsVal l) := by
  rw [renderChainsDict_objText]
  have h := rendersTo_objText d (chainsItems (d + 1) l) ?hvals ?hnd2
  · rw [show (chainsItems (d + 1) l).map (fun it => (PyKey.str it.1, it.2.2)) =
        l.map (fun p => (PyKey.str (String.mk (intToDec p.1)), p.2.pyVal)) from by
      simp only [chainsItems, List.map_map]; rfl] at h
    exact h
  case hvals =>
    intro it hit
    simp only [chainsItems, List.mem_map] at hit
    obtain ⟨p, _, hp⟩ := hit
    subst hp
    exact rendersTo_chainConfig (d + 1) p.2
  case hnd2 =>
    rw [show (chainsItems (d + 1) l).map (fun it => PyKey.str it.1) =
        (l.map Prod.fst).map (fun i => PyKey.str (String.mk (intToDec i))) from by
      simp only [chainsItems, List.map_map]; rfl]
    refine hnd.map ?_
    intro a b hab
    exact intToDec_inj (congrArg String.data (PyKey.str.inj hab))

theorem renderRequestManager_objText (d : Nat) (rm : RequestManagerConfig) :
    renderRequestManager d rm = objText d (rmItems d rm) := by
  rw [← renderObjEntries_objText]
  rfl

theorem rendersTo_requestManager (d : Nat) (rm : RequestManagerConfig)
    (hnd1 : (rm.chains.map Prod.fst).Nodup) (hnd2 : (rm.tokens.map Prod.fst).Nodup) :
    RendersTo (renderRequestManager d rm) rm.pyVal := by
  rw [renderRequestManager_objText]
  have h := rendersTo_objText d (rmItems d rm) ?hvals ?hnd
  · exact h
  case hvals =>
    intro it hit
    simp only [rmItems, List.mem_cons, List.not_mem_nil, or_false] at hit
    rcases hit with h | h | h | h | h | h <;> subst h
    · exact rendersTo_int _
    · exact rendersTo_int _
    · exact rendersTo_int _
    · exact rendersTo_chainsDict (d + 1) rm.chains hnd1
    · exact rendersTo_tokensDict (d + 1) rm.tokens hnd2
    · exact rendersTo_strList (d + 1) rm.whitelist
  case hnd =>
    show ([PyKey.str "min_fee_ppm", PyKey.str "lp_fee_ppm", PyKey.str "protocol_fee_ppm",
      PyKey.str "chains", PyKey.str "tokens", PyKey.str "whitelist"] : List PyKey).Nodup
    decide

theorem renderFillManager_objText (d : Nat) (fm : FillManagerConfig) :
    renderFillManager d fm = objText d (fmItems d fm) := by
  rw [← renderObjEntries_objText]
  rfl

theorem rendersTo_fillManager (d : Nat) (fm : FillManagerConfig) :
    RendersTo (renderFillManager d fm) fm.pyVal := by
  rw [renderFillManager_objText]
  have h := rendersTo_objText d (fmItems d fm) ?hvals ?hnd
  · exact h
  case hvals =>
    intro it hit
    simp only [fmItems, List.mem_cons, List.not_mem_nil, or_false] at hit
    subst hit
    exact rendersTo_strList (d + 1) fm.whitelist
  case hnd =>
    show ([PyKey.str "whitelist"] : List PyKey).Nodup
    decide

theorem to_file_text_objText (c : Configuration) :
    c.to_file_text = objText 0 (fileItems c) := by
  rw [Configuration.to_file_text, Configuration.serializedEntries,
    ← renderObjEntries_objText]
  rfl

theorem serializedText_objText (c : Configuration) :
    c.serializedText = objText 0 (cfgItems c) := by
  rw [Configuration.serializedText, Configuration.serializedEntries,
    ← renderObjEntries_objText]
  rfl

/-! ## `json.loads` of a written file -/

theorem fileItems_hvals (c : Configuration)
    (h1 : (c.token_addresses.map Prod.fst).Nodup)
    (h2 : (c.request_manager.chains.map Prod.fst).Nodup)
    (h3 : (c.request_manager.tokens.map Prod.fst).Nodup) :
    ∀ it ∈ fileItems c, RendersTo it.2.1 it.2.2 := by
  intro it hit
  simp only [fileItems, cfgItems, List.mem_cons, List.not_mem_nil, or_false] at hit
  rcases hit with h | h | h | h | h | h <;> subst h
  · exact rendersTo_str _
  · exact rendersTo_int _
  · exact rendersTo_int _
  · exact rendersTo_strDict 1 _ h1
  · exact rendersTo_requestManager 1 _ h2 h3
  · exact rendersTo_fillManager 1 _

theorem fileItems_fold (c : Configuration) :
    (fileItems c).foldl (fun a it => setKey a (.str it.1) it.2.2) [] = c.filePairs := by
  have hfold := foldl_setKey_append (fun it => PyKey.str it.1) (fileItems c) []
    (by
      show ([PyKey.str "checksum", PyKey.str "block", PyKey.str "chain_id",
        PyKey.str "token_addresses", PyKey.str "RequestManager",
        PyKey.str "FillManager"] : List PyKey).Nodup
      decide)
    (by intro it _ p hp; exact absurd hp (List.not_mem_nil p))
  rw [hfold]
  rfl

theorem parseVal_to_file (c : Configuration)
    (h1 : (c.token_addresses.map Prod.fst).Nodup)
    (h2 : (c.request_manager.chains.map Prod.fst).Nodup)
    (h3 : (c.request_manager.tokens.map Prod.fst).Nodup)
    (f : Nat) (hf : c.to_file_text.length < f) :
    parseVal f c.to_file_text = some (.obj c.filePairs, []) := by
  rw [to_file_text_objText] at hf ⊢
  rw [← List.append_nil (objText 0 (fileItems c)),
    parseVal_objText 0 (fileItems c) (fileItems_hvals c h1 h2 h3) [] f hf,
    fileItems_fold]

theorem json_loads_core_some (cs : List Char) (v : PyVal)
    (h : parseVal (2 * cs.length + 4) cs = some (v, [])) :
    json_loads_core cs = some v := by
  rw [json_loads_core, h]
  rfl

theorem to_file_text_head (c : Configuration) :
    ∃ t, c.to_file_text = lbrace :: t := by
  rw [to_file_text_objText, fileItems, objText_cons]
  exact ⟨_, rfl⟩

theorem json_loads_to_file (c : Configuration)
    (h1 : (c.token_addresses.map Prod.fst).Nodup)
    (h2 : (c.request_manager.chains.map Prod.fst).Nodup)
    (h3 : (c.request_manager.tokens.map Prod.fst).Nodup) :
    json_loads c.to_file = some (.obj c.filePairs) := by
  obtain ⟨t, ht⟩ := to_file_text_head c
  show json_loads_core (skipWs c.to_file_text) = _
  rw [show skipWs c.to_file_text = c.to_file_text from by
    rw [ht]
    exact skipWs_not_ws (by decide) t]
  exact json_loads_core_some _ _ (parseVal_to_file c h1 h2 h3 _ (by omega))

/-! ## Chain-ID key normalization on a loaded file -/

theorem normalizeChainsAcc_str_cons (acc : List (PyKey × PyVal)) (s : String)
    (v : PyVal) (rest : List (PyKey × PyVal)) :
    normalizeChainsAcc acc ((PyKey.str s, v) :: rest) =
      match pyInt s with
      | some i => normalizeChainsAcc (setKey acc (.int i) v) rest
      | none => .error s := by
  rw [normalizeChainsAcc.eq_def]

theorem normalizeChainsAcc_dec (l : List (Int × ChainConfig)) :
    ∀ acc : List (PyKey × PyVal),
      (l.map Prod.fst).Nodup →
      (∀ q ∈ l, ∀ p ∈ acc, p.1 ≠ PyKey.int q.1) →
      normalizeChainsAcc acc
        (l.map fun p => (PyKey.str (String.mk (intToDec p.1)), p.2.pyVal)) =
        .ok (acc ++ l.map fun p => (PyKey.int p.1, p.2.pyVal)) := by
  induction l with
  | nil =>
    intro acc _ _
    simp [normalizeChainsAcc]
  | cons q l ih =>
    intro acc hnd hfresh
    rw [List.map_cons] at hnd
    have hfr : ∀ x ∈ l, ∀ p ∈ acc ++ [(PyKey.int q.1, q.2.pyVal)], p.1 ≠ PyKey.int x.1 := by
      intro x hx p hp
      rcases List.mem_append.mp hp with hp | hp
      · exact hfresh x (by simp [hx]) p hp
      · simp only [List.mem_singleton] at hp
        subst hp
        show PyKey.int q.1 ≠ PyKey.int x.1
        intro hcon
        apply (List.nodup_cons.mp hnd).1
        rw [PyKey.int.inj hcon]
        exact List.mem_map_of_mem Prod.fst hx
    rw [List.map_cons, normalizeChainsAcc_str_cons, pyInt_intToDec]
    show normalizeChainsAcc (setKey acc (PyKey.int q.1) q.2.pyVal)
        (l.map fun p => (PyKey.str (String.mk (intToDec p.1)), p.2.pyVal)) = _
    rw [setKey_absent acc (PyKey.int q.1) q.2.pyVal
      (fun p hp => hfresh q (by simp) p hp)]
    rw [ih (acc ++ [(PyKey.int q.1, q.2.pyVal)]) (List.nodup_cons.mp hnd).2 hfr]
    simp

theorem normalizeChains_dec (l : List (Int × ChainConfig))
    (hnd : (l.map Prod.fst).Nodup) :
    normalizeChains (l.map fun p => (PyKey.str (String.mk (intToDec p.1)), p.2.pyVal)) =
      .ok (l.map fun p => (PyKey.int p.1, p.2.pyVal)) := by
  rw [normalizeChains, normalizeChainsAcc_dec l [] hnd
    (by intro q _ p hp; exact absurd hp (List.not_mem_nil p))]
  simp

/-- Every key of a `setKey` result is the inserted key or a key already in
the accumulator. -/
theorem setKey_fst_subset (acc : List (PyKey × PyVal)) (k : PyKey) (v : PyVal) :
    ∀ q ∈ setKey acc k v, q.1 = k ∨ ∃ p ∈ acc, q.1 = p.1 := by
  induction acc with
  | nil =>
    intro q hq
    simp only [setKey, List.mem_singleton] at hq
    subst hq
    exact Or.inl rfl
  | cons p acc ih =>
    intro q hq
    obtain ⟨k2, v2⟩ := p
    rw [setKey] at hq
    by_cases hk : k2 = k
    · rw [if_pos hk] at hq
      rcases List.mem_cons.mp hq with h | h
      · subst h
        exact Or.inl rfl
      · exact Or.inr ⟨q, List.mem_cons_of_mem _ h, rfl⟩
    · rw [if_neg hk] at hq
      rcases List.mem_cons.mp hq with h | h
      · subst h
        exact Or.inr ⟨(k2, v2), by simp, rfl⟩
      · rcases ih q h with h2 | ⟨p3, hp3, h3⟩
        · exact Or.inl h2
        · exact Or.inr ⟨p3, List.mem_cons_of_mem _ hp3, h3⟩

/-- When every key of the list parses as an integer, normalization
succeeds and every key of the result is an accumulator key or an integer
obtained by parsing one of the list's string keys. -/
theorem normalizeChainsAcc_all_parse :
    ∀ l : List (PyKey × PyVal),
      (∀ p ∈ l, ∃ s i, p.1 = PyKey.str s ∧ pyInt s = some i) →
      ∀ acc, ∃ out, normalizeChainsAcc acc l = .ok out ∧
        ∀ q ∈ out, (∃ p ∈ acc, q.1 = p.1) ∨
          ∃ p ∈ l, ∃ s i, p.1 = PyKey.str s ∧ pyInt s = some i ∧ q.1 = PyKey.int i := by
  intro l
  induction l with
  | nil =>
    intro _ acc
    exact ⟨acc, rfl, fun q hq => Or.inl ⟨q, hq, rfl⟩⟩
  | cons p l ih =>
    intro hall acc
    obtain ⟨k, v⟩ := p
    obtain ⟨s, i, hk, hpy⟩ := hall (k, v) (by simp)
    have hk2 : k = PyKey.str s := hk
    subst hk2
    rw [normalizeChainsAcc_str_cons, hpy]
    obtain ⟨out, hout, hchar⟩ :=
      ih (fun q hq => hall q (by simp [hq])) (setKey acc (PyKey.int i) v)
    refine ⟨out, hout, ?_⟩
    intro q hq
    rcases hchar q hq with ⟨p2, hp2, hq2⟩ | ⟨p2, hp2, s2, i2, hk3, hpy2, hq2⟩
    · rcases setKey_fst_subset acc (PyKey.int i) v p2 hp2 with h | ⟨p3, hp3, h⟩
      · exact Or.inr ⟨(PyKey.str s, v), by simp, s, i, rfl, hpy, by rw [hq2, h]⟩
      · exact Or.inl ⟨p3, hp3, by rw [hq2, h]⟩
    · exact Or.inr ⟨p2, List.mem_cons_of_mem _ hp2, s2, i2, hk3, hpy2, hq2⟩

/-- `normalizeChains` on an all-parsable object: success, and every
normalized key is an integer parsed from one of the original keys. -/
theorem normalizeChains_all_parse (chainKvs : List (PyKey × PyVal))
    (hall : ∀ p ∈ chainKvs, ∃ s i, p.1 = PyKey.str s ∧ pyInt s = some i) :
    ∃ kvs2, normalizeChains chainKvs = .ok kvs2 ∧
      ∀ q ∈ kvs2, ∃ p ∈ chainKvs, ∃ s i,
        p.1 = PyKey.str s ∧ pyInt s = some i ∧ q.1 = PyKey.int i := by
  obtain ⟨out, hout, hchar⟩ := normalizeChainsAcc_all_parse chainKvs hall []
  refine ⟨out, hout, ?_⟩
  intro q hq
  rcases hchar q hq with ⟨p, hp, -⟩ | h
  · exact absurd hp (List.not_mem_nil p)
  · exact h

/-- The first unparsable key aborts normalization with that key, whatever
parsable keys precede it. -/
theorem normalizeChainsAcc_first_bad (s : String) (v : PyVal)
    (rest : List (PyKey × PyVal)) :
    ∀ (pre : List (PyKey × PyVal)) (acc : List (PyKey × PyVal)),
      (∀ p ∈ pre, ∃ s2 i, p.1 = PyKey.str s2 ∧ pyInt s2 = some i) →
      pyInt s = none →
      normalizeChainsAcc acc (pre ++ (PyKey.str s, v) :: rest) = .error s := by
  intro pre
  induction pre with
  | nil =>
    intro acc _ hpy
    rw [List.nil_append, normalizeChainsAcc_str_cons, hpy]
  | cons p pre ih =>
    intro acc hall hpy
    obtain ⟨k, v2⟩ := p
    obtain ⟨s2, i, hk, hpy2⟩ := hall (k, v2) (by simp)
    have hk2 : k = PyKey.str s2 := hk
    subst hk2
    rw [List.cons_append, normalizeChainsAcc_str_cons, hpy2]
    exact ih (setKey acc (PyKey.int i) v2) (fun q hq => hall q (by simp [hq])) hpy

theorem normStep_filePairs (c : Configuration)
    (hnd : (c.request_manager.chains.map Prod.fst).Nodup) :
    normStep c.filePairs = .ok c.normPairs := by
  have hn := normalizeChains_dec c.request_manager.chains hnd
  simp [normStep, Configuration.filePairs, RequestManagerConfig.pyVal, chainsVal,
    lookupKey]
  rw [hn]
  rfl

/-! ## Deserializing a serialized configuration -/

theorem dIntMin_ok (loc : List String) (m i : Int) (h : m ≤ i) :
    dIntMin loc m (.int i) = .ok i := by
  rw [dIntMin, if_neg (by omega)]

theorem dIntMinMax_ok (loc : List String) (m M i : Int) (h1 : m ≤ i) (h2 : i ≤ M) :
    dIntMinMax loc m M (.int i) = .ok i := by
  rw [dIntMinMax, if_neg (by omega), if_neg (by omega)]

theorem dStrEntries_map (loc : List String) (l : List (String × String)) :
    dStrEntries loc (l.map fun p => (PyKey.str p.1, PyVal.str p.2)) = .ok l := by
  induction l with
  | nil => rfl
  | cons p l ih =>
    rw [List.map_cons]
    show (fun q => q.1 :: q.2) <$>
        comb ((fun a => (p.1, a)) <$> dStr (loc ++ [p.1]) (.str p.2))
          (dStrEntries loc (l.map fun p => (PyKey.str p.1, PyVal.str p.2))) = .ok (p :: l)
    rw [ih]
    rfl

theorem dTokenConfig_ok (loc : List String) (t : TokenConfig)
    (h1 : 0 ≤ t.transfer_limit) (h2 : 0 ≤ t.eth_in_token) :
    dTokenConfig loc t.pyVal = .ok t := by
  show (fun p => TokenConfig.mk p.2.1 p.2.2) <$>
      comb (.ok ())
        (comb (dIntMin (loc ++ ["transfer_limit"]) 0 (.int t.transfer_limit))
          (dIntMin (loc ++ ["eth_in_token"]) 0 (.int t.eth_in_token))) = .ok t
  rw [dIntMin_ok _ _ _ h1, dIntMin_ok _ _ _ h2]
  rfl

theorem dChainConfig_ok (loc : List String) (cc : ChainConfig)
    (h1 : 1 ≤ cc.finality_period) (h2 : 0 ≤ cc.target_weight_ppm)
    (h3 : cc.target_weight_ppm ≤ 999999) (h4 : 0 ≤ cc.transfer_cost) :
    dChainConfig loc cc.pyVal = .ok cc := by
  show (fun p => ChainConfig.mk p.2.1 p.2.2.1 p.2.2.2) <$>
      comb (.ok ())
        (comb (dIntMin (loc ++ ["finality_period"]) 1 (.int cc.finality_period))
          (comb (dIntMinMax (loc ++ ["target_weight_ppm"]) 0 999999 (.int cc.target_weight_ppm))
            (dIntMin (loc ++ ["transfer_cost"]) 0 (.int cc.transfer_cost)))) = .ok cc
  rw [dIntMin_ok _ _ _ h1, dIntMinMax_ok _ _ _ _ h2 h3, dIntMin_ok _ _ _ h4]
  rfl

theorem dTokensEntries_map (loc : List String) (l : List (String × TokenConfig))
    (h : ∀ p ∈ l, 0 ≤ p.2.transfer_limit ∧ 0 ≤ p.2.eth_in_token) :
    dTokensEntries loc (l.map fun p => (PyKey.str p.1, p.2.pyVal)) = .ok l := by
  induction l with
  | nil => rfl
  | cons p l ih =>
    rw [List.map_cons]
    show (fun q => q.1 :: q.2) <$>
        comb ((fun tc => (p.1, tc)) <$> dTokenConfig (loc ++ [p.1]) p.2.pyVal)
          (dTokensEntries loc (l.map fun p => (PyKey.str p.1, p.2.pyVal))) = .ok (p :: l)
    rw [dTokenConfig_ok _ _ (h p (by simp)).1 (h p (by simp)).2,
      ih (fun q hq => h q (by simp [hq]))]
    rfl

theorem dChainsEntries_map (loc : List String) (l : List (Int × ChainConfig))
    (h : ∀ p ∈ l, 1 ≤ p.2.finality_period ∧ 0 ≤ p.2.target_weight_ppm ∧
      p.2.target_weight_ppm ≤ 999999 ∧ 0 ≤ p.2.transfer_cost) :
    dChainsEntries loc (l.map fun p => (PyKey.int p.1, p.2.pyVal)) = .ok l := by
  induction l with
  | nil => rfl
  | cons p l ih =>
    rw [List.map_cons]
    show (fun q => q.1 :: q.2) <$>
        comb ((fun cc => (p.1, cc)) <$>
            dChainConfig (loc ++ [String.mk (intToDec p.1)]) p.2.pyVal)
          (dChainsEntries loc (l.map fun p => (PyKey.int p.1, p.2.pyVal))) = .ok (p :: l)
    obtain ⟨hh1, hh2, hh3, hh4⟩ := h p (by simp)
    rw [dChainConfig_ok _ _ hh1 hh2 hh3 hh4, ih (fun q hq => h q (by simp [hq]))]
    rfl

theorem dStrElems_map (loc : List String) (xs : List String) :
    dStrElems loc (xs.map PyVal.str) = .ok xs := by
  induction xs with
  | nil => rfl
  | cons x xs ih =>
    rw [List.map_cons]
    show (fun q => q.1 :: q.2) <$>
        comb (dStr loc (.str x)) (dStrElems loc (xs.map PyVal.str)) = .ok (x :: xs)
    rw [ih]
    rfl

theorem dedupAcc_id : ∀ (xs seen : List String), xs.Nodup →
    (∀ x ∈ xs, x ∉ seen) → dedupAcc seen xs = xs := by
  intro xs
  induction xs with
  | nil => intro seen _ _; rfl
  | cons x xs ih =>
    intro seen hnd hs
    rw [dedupAcc, if_neg (by simpa using hs x (by simp))]
    rw [ih (x :: seen) (List.nodup_cons.mp hnd).2 ?fresh]
    case fresh =>
      intro y hy
      simp only [List.mem_cons, not_or]
      constructor
      · intro hyx
        exact (List.nodup_cons.mp hnd).1 (hyx ▸ hy)
      · exact hs y (by simp [hy])

theorem dWhitelist_ok (loc : List String) (xs : List String) (hnd : xs.Nodup) :
    dWhitelist loc (strListVal xs) = .ok xs := by
  rw [strListVal]
  show dedupAcc [] <$> dStrElems loc (xs.map PyVal.str) = .ok xs
  rw [dStrElems_map]
  show Except.ok (dedupAcc [] xs) = .ok xs
  rw [dedupAcc_id xs [] hnd (by simp)]

theorem dRequestManager_ok (loc : List String) (rm : RequestManagerConfig)
    (hmin : 0 ≤ rm.min_fee_ppm)
    (hlp1 : 0 ≤ rm.lp_fee_ppm) (hlp2 : rm.lp_fee_ppm ≤ 999999)
    (hpr1 : 0 ≤ rm.protocol_fee_ppm) (hpr2 : rm.protocol_fee_ppm ≤ 999999)
    (hch : ∀ p ∈ rm.chains, 1 ≤ p.2.finality_period ∧ 0 ≤ p.2.target_weight_ppm ∧
      p.2.target_weight_ppm ≤ 999999 ∧ 0 ≤ p.2.transfer_cost)
    (htk : ∀ p ∈ rm.tokens, 0 ≤ p.2.transfer_limit ∧ 0 ≤ p.2.eth_in_token)
    (hwl : rm.whitelist.Nodup) :
    dRequestManager loc rm.normVal = .ok rm := by
  show (fun p => RequestManagerConfig.mk p.2.1 p.2.2.1 p.2.2.2.1 p.2.2.2.2.1 p.2.2.2.2.2.1
      p.2.2.2.2.2.2) <$>
    comb (.ok ())
      (comb (dIntMin (loc ++ ["min_fee_ppm"]) 0 (.int rm.min_fee_ppm))
        (comb (dIntMinMax (loc ++ ["lp_fee_ppm"]) 0 999999 (.int rm.lp_fee_ppm))
          (comb (dIntMinMax (loc ++ ["protocol_fee_ppm"]) 0 999999 (.int rm.protocol_fee_ppm))
            (comb (dChains (loc ++ ["chains"]) (chainsNormVal rm.chains))
              (comb (dTokens (loc ++ ["tokens"]) (tokensVal rm.tokens))
                (dWhitelist (loc ++ ["whitelist"]) (strListVal rm.whitelist))))))) = .ok rm
  have hchains : dChains (loc ++ ["chains"]) (chainsNormVal rm.chains) = .ok rm.chains := by
    rw [chainsNormVal]
    show dChainsEntries (loc ++ ["chains"])
      (rm.chains.map fun p => (PyKey.int p.1, p.2.pyVal)) = _
    exact dChainsEntries_map _ _ hch
  have htokens : dTokens (loc ++ ["tokens"]) (tokensVal rm.tokens) = .ok rm.tokens := by
    rw [tokensVal]
    show dTokensEntries (loc ++ ["tokens"])
      (rm.tokens.map fun p => (PyKey.str p.1, p.2.pyVal)) = _
    exact dTokensEntries_map _ _ htk
  rw [dIntMin_ok _ _ _ hmin, dIntMinMax_ok _ _ _ _ hlp1 hlp2,
    dIntMinMax_ok _ _ _ _ hpr1 hpr2, hchains, htokens, dWhitelist_ok _ _ hwl]
  rfl

theorem dFillManager_ok (loc : List String) (fm : FillManagerConfig)
    (hwl : fm.whitelist.Nodup) :
    dFillManager loc fm.pyVal = .ok fm := by
  show (fun p => FillManagerConfig.mk p.2) <$>
    comb (.ok ()) (dWhitelist (loc ++ ["whitelist"]) (strListVal fm.whitelist)) = .ok fm
  rw [dWhitelist_ok _ _ hwl]
  rfl

theorem dConfigurationSchema_ok (c : Configuration) (h : c.valid) :
    dConfigurationSchema (.obj c.bodyPairs) = .ok c := by
  obtain ⟨hb, hcid, _, _, hmin, hlp1, hlp2, hpr1, hpr2, hch, htk,
    hnd1, hnd2, hnd3, hwl1, hwl2⟩ := h
  show (fun p => Configuration.mk p.2.1 p.2.2.1 p.2.2.2.1 p.2.2.2.2.1 p.2.2.2.2.2) <$>
    comb (.ok ())
      (comb (dIntMin ["block"] 1 (.int c.block))
        (comb (dIntMin ["chain_id"] 1 (.int c.chain_id))
          (comb (dTokenAddresses ["token_addresses"] (strDictVal c.token_addresses))
            (comb (dRequestManager ["RequestManager"] c.request_manager.normVal)
              (dFillManager ["FillManager"] c.fill_manager.pyVal))))) = .ok c
  have hta : dTokenAddresses ["token_addresses"] (strDictVal c.token_addresses) =
      .ok c.token_addresses := by
    rw [strDictVal]
    show dStrEntries ["token_addresses"]
      (c.token_addresses.map fun p => (PyKey.str p.1, PyVal.str p.2)) = _
    exact dStrEntries_map _ _
  rw [dIntMin_ok _ _ _ hb, dIntMin_ok _ _ _ hcid, hta,
    dRequestManager_ok _ _ hmin hlp1 hlp2 hpr1 hpr2 hch htk hwl1,
    dFillManager_ok _ _ hwl2]
  rfl

theorem validationFindings_nil (c : Configuration)
    (h1 : ∀ p ∈ c.token_addresses, is_checksum_address p.2 = true)
    (h2 : ∀ p ∈ c.request_manager.tokens, ∃ q ∈ c.token_addresses, q.1 = p.1) :
    c.validationFindings = [] := by
  rw [Configuration.validationFindings, Configuration._check_token_addresses,
    Configuration._check_tokens]
  rw [List.append_eq_nil]
  constructor
  · rw [List.flatMap_eq_nil_iff]
    intro p hp
    rw [if_pos (h1 p hp)]
  · rw [List.flatMap_eq_nil_iff]
    intro p hp
    obtain ⟨q, hq, hqp⟩ := h2 p hp
    rw [if_pos (by
      rw [List.any_eq_true]
      exact ⟨q, hq, by simp [hqp]⟩)]

theorem deserialize_bodyPairs (c : Configuration) (h : c.valid) :
    deserializeConfiguration (.obj c.bodyPairs) = .ok c := by
  rw [deserializeConfiguration, dConfigurationSchema_ok c h]
  have hv : c.validationFindings = [] :=
    validationFindings_nil c h.2.2.1 h.2.2.2.1
  show (match c.validationFindings with
        | [] => Except.ok c
        | fs => .error fs) = .ok c
  rw [hv]

/-! ## The save/load round trip -/

theorem from_fileData_filePairs (c : Configuration) (h : c.valid) :
    from_fileData (.obj c.filePairs) = .ok c := by
  have h' := h
  obtain ⟨-, -, -, -, -, -, -, -, -, -, -, -, hnd2, -, -, -⟩ := h'
  rw [from_fileData]
  rw [normStep_filePairs c hnd2]
  show from_fileBody c.normPairs = .ok c
  show (match deserializeConfiguration (.obj c.bodyPairs) with
        | Except.error fs => Except.error (LoadError.validationFailed fs)
        | Except.ok config => from_fileChecked (.str c.compute_checksum) config) = .ok c
  rw [deserialize_bodyPairs c h]
  show from_fileChecked (.str c.compute_checksum) c = .ok c
  rw [from_fileChecked, if_pos rfl]

theorem from_file_to_file (c : Configuration) (h : c.valid) :
    from_file c.to_file = .ok c := by
  have h' := h
  obtain ⟨-, -, -, -, -, -, -, -, -, -, -, hnd1, hnd2, hnd3, -, -⟩ := h'
  rw [from_file, json_loads_to_file c hnd1 hnd2 hnd3]
  show from_fileData (.obj c.filePairs) = .ok c
  exact from_fileData_filePairs c h

/-! ## Removing the checksum line from a written file -/

theorem hexDigitChar_lt16_ne_nl {m : Nat} (h : m < 16) : hexDigitChar m ≠ '\n' := by
  interval_cases m <;> decide

theorem hex4_no_nl (n : Nat) : ∀ ch ∈ hex4 n, ch ≠ '\n' := by
  intro ch hch
  simp only [hex4, List.mem_cons, List.not_mem_nil, or_false] at hch
  rcases hch with h | h | h | h <;> subst h <;>
    exact hexDigitChar_lt16_ne_nl (Nat.mod_lt _ (by omega))

set_option maxHeartbeats 1000000 in
theorem escChar_no_nl (c : Char) : ∀ ch ∈ escChar c, ch ≠ '\n' := by
  have hlit : ∀ (a b : Char), a ≠ '\n' → b ≠ '\n' → ∀ ch ∈ [a, b], ch ≠ '\n' := by
    intro a b ha hb ch hch
    rcases List.mem_cons.mp hch with h | h
    · subst h; exact ha
    · simp only [List.mem_singleton] at h
      subst h; exact hb
  have hseq : ∀ n : Nat, ∀ ch ∈ '\\' :: 'u' :: hex4 n, ch ≠ '\n' := by
    intro n ch hch
    rcases List.mem_cons.mp hch with h | h
    · subst h; decide
    · rcases List.mem_cons.mp h with h | h
      · subst h; decide
      · exact hex4_no_nl n ch h
  rw [escChar]
  by_cases h1 : c = '"'
  · rw [if_pos h1]; exact hlit _ _ (by decide) (by decide)
  rw [if_neg h1]
  by_cases h2 : c = '\\'
  · rw [if_pos h2]; exact hlit _ _ (by decide) (by decide)
  rw [if_neg h2]
  by_cases h3 : c = '\n'
  · rw [if_pos h3]; exact hlit _ _ (by decide) (by decide)
  rw [if_neg h3]
  by_cases h4 : c = '\r'
  · rw [if_pos h4]; exact hlit _ _ (by decide) (by decide)
  rw [if_neg h4]
  by_cases h5 : c = '\t'
  · rw [if_pos h5]; exact hlit _ _ (by decide) (by decide)
  rw [if_neg h5]
  by_cases h6 : c.toNat = 8
  · rw [if_pos (by simp [h6])]; exact hlit _ _ (by decide) (by decide)
  rw [if_neg (by simp [h6])]
  by_cases h7 : c.toNat = 12
  · rw [if_pos (by simp [h7])]; exact hlit _ _ (by decide) (by decide)
  rw [if_neg (by simp [h7])]
  by_cases h8 : c.toNat < 32
  · rw [if_pos h8]; exact hseq _
  rw [if_neg h8]
  by_cases h9 : c.toNat ≤ 126
  · rw [if_pos h9]
    intro ch hch
    simp only [List.mem_singleton] at hch
    subst hch
    have hnl : ('\n').toNat = 10 := by decide
    exact toNat_ne (by omega)
  rw [if_neg h9]
  by_cases h10 : c.toNat < 65536
  · rw [if_pos h10]; exact hseq _
  rw [if_neg h10]
  intro ch hch
  rcases List.mem_append.mp hch with h | h
  · exact hseq _ ch h
  · exact hseq _ ch h

theorem jsonQuote_no_nl (s : String) : ∀ ch ∈ jsonQuote s, ch ≠ '\n' := by
  intro ch hch
  rw [jsonQuote] at hch
  rcases List.mem_cons.mp hch with h | h
  · subst h; decide
  · rcases List.mem_append.mp h with h | h
    · obtain ⟨c, _, hc⟩ := List.mem_flatMap.mp h
      exact escChar_no_nl c ch hc
    · simp only [List.mem_singleton] at h
      subst h; decide

theorem takeLine_cons_nl (c : Char) (r : List Char) (h : c ≠ '\n') :
    takeLine (c :: '\n' :: r) = [c, '\n'] := by
  rw [takeLine, if_neg h, takeLine, if_pos rfl]

theorem dropLine_cons (c : Char) (r : List Char) (h : c ≠ '\n') :
    dropLine (c :: r) = dropLine r := by
  rw [dropLine, if_neg h]

theorem dropLine_no_nl (X : List Char) (Y : List Char)
    (h : ∀ ch ∈ X, ch ≠ '\n') : dropLine (X ++ '\n' :: Y) = Y := by
  induction X with
  | nil => rw [List.nil_append, dropLine, if_pos rfl]
  | cons c X ih =>
    rw [List.cons_append, dropLine_cons c _ (h c (by simp)),
      ih (fun ch hch => h ch (by simp [hch]))]

theorem removeSecondLine_objText (d : Nat) (it : String × List Char × PyVal)
    (items : List (String × List Char × PyVal)) (hne : items ≠ [])
    (hno : ∀ ch ∈ it.2.1, ch ≠ '\n') :
    removeSecondLine (objText d (it :: items)) = objText d items := by
  match items with
  | it2 :: its =>
    rw [objText_cons, removeSecondLine]
    rw [membersText]
    have hXnl : ∀ ch ∈ sp (4 * (d + 1)) ++ (jsonQuote it.1 ++
        ':' :: ' ' :: (it.2.1 ++ [','])), ch ≠ '\n' := by
      intro ch hch
      rcases List.mem_append.mp hch with h | h
      · rw [sp] at h
        rw [(List.eq_of_mem_replicate h : ch = ' ')]
        decide
      · rcases List.mem_append.mp h with h | h
        · exact jsonQuote_no_nl it.1 ch h
        · rcases List.mem_cons.mp h with h | h
          · subst h; decide
          · rcases List.mem_cons.mp h with h | h
            · subst h; decide
            · rcases List.mem_append.mp h with h | h
              · exact hno ch h
              · simp only [List.mem_singleton] at h
                subst h; decide
    have hassoc : sp (4 * (d + 1)) ++ (jsonQuote it.1 ++
        (':' :: ' ' :: (it.2.1 ++ (',' :: '\n' :: (sp (4 * (d + 1)) ++
          membersText d (it2 :: its)))))) =
        (sp (4 * (d + 1)) ++ (jsonQuote it.1 ++ ':' :: ' ' :: (it.2.1 ++ [',']))) ++
          '\n' :: (sp (4 * (d + 1)) ++ membersText d (it2 :: its)) := by
      simp [List.append_assoc]
    rw [takeLine_cons_nl _ _ (by decide), dropLine_cons _ _ (by decide),
      dropLine, if_pos rfl, hassoc, dropLine_no_nl _ _ hXnl, objText_cons]
    rfl

theorem removeSecondLine_to_file (c : Configuration) :
    removeSecondLine c.to_file_text = c.serializedText := by
  rw [to_file_text_objText, serializedText_objText,
    show fileItems c =
      ("checksum", jsonQuote c.compute_checksum, PyVal.str c.compute_checksum) ::
        cfgItems c from rfl]
  exact removeSecondLine_objText 0 _ (cfgItems c) (by rw [cfgItems]; simp)
    (jsonQuote_no_nl c.compute_checksum)

theorem utf8Enc_append (X Y : List Char) :
    utf8Enc (X ++ Y) = utf8Enc X ++ utf8Enc Y := by
  simp [utf8Enc]

theorem utf8Enc_newline_ne (X : List Char) :
    utf8Enc (X ++ ['\n']) ≠ utf8Enc X := by
  intro h
  have hlen := congrArg List.length h
  rw [utf8Enc_append, List.length_append] at hlen
  have h1 : (utf8Enc ['\n']).length = 1 := by decide
  omega

/-! ## Shape of the rendered digest -/

theorem beBytes_length (k : Nat) : ∀ n, (beBytes k n).length = k := by
  induction k with
  | zero => intro n; rfl
  | succ k ih =>
    intro n
    rw [beBytes]
    simp [ih]

theorem sha256_length (msg : List Nat) : (sha256 msg).length = 32 := by
  rw [sha256]
  simp [beBytes_length]

theorem hexOfBytes_length (bs : List Nat) : (hexOfBytes bs).data.length = 2 * bs.length := by
  show ((bs.map hexByte).flatten).length = 2 * bs.length
  induction bs with
  | nil => rfl
  | cons b bs ih =>
    rw [List.map_cons, List.flatten_cons, List.length_append, ih]
    show 2 + 2 * bs.length = 2 * (bs.length + 1)
    omega

theorem sha256Hex_length (msg : List Nat) : (sha256Hex msg).data.length = 64 := by
  rw [sha256Hex, hexOfBytes_length, sha256_length]

theorem hexDigitChar_lower {n : Nat} (h : n < 16) :
    ('0' ≤ hexDigitChar n ∧ hexDigitChar n ≤ '9') ∨
      ('a' ≤ hexDigitChar n ∧ hexDigitChar n ≤ 'f') := by
  interval_cases n <;> decide

theorem hexOfBytes_lower (bs : List Nat) :
    ∀ ch ∈ (hexOfBytes bs).data, ('0' ≤ ch ∧ ch ≤ '9') ∨ ('a' ≤ ch ∧ ch ≤ 'f') := by
  intro ch hch
  have hch' : ch ∈ (bs.map hexByte).flatten := hch
  obtain ⟨l, hl, hchl⟩ := List.mem_flatten.mp hch'
  obtain ⟨b, _, hb⟩ := List.mem_map.mp hl
  subst hb
  simp only [hexByte, List.mem_cons, List.not_mem_nil, or_false] at hchl
  rcases hchl with h | h <;> subst h <;>
    exact hexDigitChar_lower (Nat.mod_lt _ (by omega))

theorem sha256Hex_lower (msg : List Nat) :
    ∀ ch ∈ (sha256Hex msg).data, ('0' ≤ ch ∧ ch ≤ '9') ∨ ('a' ≤ ch ∧ ch ≤ 'f') := by
  rw [sha256Hex]
  exact hexOfBytes_lower (sha256 msg)

/-! ## Inversion of the deserializer: what a successful construction
guarantees -/

theorem from_fileChecked_ok_inv {stored : PyVal} {config c' : Configuration}
    (h : from_fileChecked stored config = .ok c') :
    stored = .str c'.compute_checksum ∧ config = c' := by
  cases stored with
  | str s =>
    rw [from_fileChecked] at h
    by_cases hs : s = config.compute_checksum
    · rw [if_pos hs] at h
      have h2 : (Except.ok config : Except LoadError Configuration) = .ok c' := h
      cases h2
      exact ⟨by rw [hs], rfl⟩
    · rw [if_neg hs] at h
      simp at h
  | null => simp [from_fileChecked] at h
  | bool b => simp [from_fileChecked] at h
  | int i => simp [from_fileChecked] at h
  | float f => simp [from_fileChecked] at h
  | list xs => simp [from_fileChecked] at h
  | obj kvs => simp [from_fileChecked] at h

theorem from_fileBody_ok_inv {kvs2 : List (PyKey × PyVal)} {c' : Configuration}
    (h : from_fileBody kvs2 = .ok c') :
    lookupKey kvs2 (.str "checksum") = some (.str c'.compute_checksum) ∧
    deserializeConfiguration (.obj (eraseKey kvs2 (.str "checksum"))) = .ok c' := by
  rw [from_fileBody] at h
  cases hlk : lookupKey kvs2 (.str "checksum") with
  | none =>
    rw [hlk] at h
    simp at h
  | some stored =>
    rw [hlk] at h
    have h2 : (match deserializeConfiguration (.obj (eraseKey kvs2 (.str "checksum"))) with
               | Except.error fs => Except.error (LoadError.validationFailed fs)
               | Except.ok config => from_fileChecked stored config) = .ok c' := h
    cases hd : deserializeConfiguration (.obj (eraseKey kvs2 (.str "checksum"))) with
    | error fs =>
      rw [hd] at h2
      simp at h2
    | ok config =>
      rw [hd] at h2
      have h3 : from_fileChecked stored config = .ok c' := h2
      obtain ⟨hst, hcfg⟩ := from_fileChecked_ok_inv h3
      subst hcfg
      refine ⟨?_, rfl⟩
      rw [hst]

theorem from_fileData_ok_inv {data : PyVal} {c' : Configuration}
    (h : from_fileData data = .ok c') :
    ∃ kvs kvs2, data = .obj kvs ∧ normStep kvs = .ok kvs2 ∧
      from_fileBody kvs2 = .ok c' := by
  cases data with
  | obj kvs =>
    rw [from_fileData] at h
    cases hn : normStep kvs with
    | error e =>
      rw [hn] at h
      simp at h
    | ok kvs2 =>
      rw [hn] at h
      exact ⟨kvs, kvs2, rfl, hn, h⟩
  | null => simp [from_fileData] at h
  | bool b => simp [from_fileData] at h
  | int i => simp [from_fileData] at h
  | float f => simp [from_fileData] at h
  | str s => simp [from_fileData] at h
  | list xs => simp [from_fileData] at h

theorem from_file_ok_inv {text : String} {c' : Configuration}
    (h : from_file text = .ok c') :
    ∃ kvs kvs2, json_loads text = some (.obj kvs) ∧ normStep kvs = .ok kvs2 ∧
      lookupKey kvs2 (.str "checksum") = some (.str c'.compute_checksum) ∧
      deserializeConfiguration (.obj (eraseKey kvs2 (.str "checksum"))) = .ok c' := by
  rw [from_file] at h
  cases hj : json_loads text with
  | none =>
    rw [hj] at h
    simp at h
  | some data =>
    rw [hj] at h
    have h2 : from_fileData data = .ok c' := h
    obtain ⟨kvs, kvs2, hdata, hn, hb⟩ := from_fileData_ok_inv h2
    subst hdata
    obtain ⟨hlk, hd⟩ := from_fileBody_ok_inv hb
    exact ⟨kvs, kvs2, rfl, hn, hlk, hd⟩

instance (c : Configuration) : Decidable c.valid := by
  unfold Configuration.valid
  infer_instance

/-! ## Concrete configurations and documents for the load tests -/

/-- A chain configuration with the smallest admissible values. -/
def ccOne : ChainConfig := ⟨1, 0, 0⟩

/-- A configuration whose only chain is keyed 10. -/
def cfgTen : Configuration := ⟨100, 1, [], ⟨0, 0, 0, [(10, ccOne)], [], []⟩, ⟨[]⟩⟩

/-- A configuration whose only chain is keyed -5. -/
def cfgNeg : Configuration := ⟨100, 1, [], ⟨0, 0, 0, [(-5, ccOne)], [], []⟩, ⟨[]⟩⟩

/-- The EIP-55 example address in all-lowercase form: well-formed hex, not
checksummed. -/
def lowAddr : String := "0x5aaeb6053f3e94c9b9a09f33669435e7ef1beaed"

/-- A configuration violating both validators: a non-checksummed address
and a token symbol with no address. -/
def c6Cfg : Configuration :=
  ⟨1, 1, [("TOK", lowAddr)], ⟨0, 0, 0, [], [("X", ⟨0, 0⟩)], []⟩, ⟨[]⟩⟩

/-- C1: for every configuration, `compute_checksum` is the SHA-256 digest,
rendered as lowercase hexadecimal (64 hex characters), of the UTF-8 bytes
of the 4-space-indented JSON serialization of the configuration's fields —
the checksum itself excluded, the two manager sub-objects under the
capitalized aliases `RequestManager` and `FillManager`, all other fields
under their lower-case names — followed by exactly one trailing newline. -/
theorem C1_compute_checksum_definition (c : Configuration) :
    c.compute_checksum =
      sha256Hex (utf8Enc
        (renderObjEntries 0
          [(jsonQuote "block", intToDec c.block),
           (jsonQuote "chain_id", intToDec c.chain_id),
           (jsonQuote "token_addresses", renderStrDict 1 c.token_addresses),
           (jsonQuote "RequestManager", renderRequestManager 1 c.request_manager),
           (jsonQuote "FillManager", renderFillManager 1 c.fill_manager)] ++ ['\n'])) ∧
    c.compute_checksum.data.length = 64 ∧
    (∀ ch ∈ c.compute_checksum.data,
      ('0' ≤ ch ∧ ch ≤ '9') ∨ ('a' ≤ ch ∧ ch ≤ 'f')) := by
  refine ⟨rfl, ?_, ?_⟩
  · exact sha256Hex_length _
  · exact sha256Hex_lower _

/-- C2: saving a valid configuration with `to_file` and loading the file
back with `from_file` succeeds, returns a structurally equal configuration,
and `compute_checksum` is unchanged across the round trip. -/
theorem C2_round_trip (c : Configuration) (h : c.valid) :
    from_file c.to_file = .ok c ∧
    Except.map Configuration.compute_checksum (from_file c.to_file) =
      .ok c.compute_checksum := by
  have hr := from_file_to_file c h
  refine ⟨hr, ?_⟩
  rw [hr]
  rfl

/-- C2 witness: the round trip on a fresh configuration. -/
theorem C2_round_trip_witness :
    (Configuration.initial 1 100).valid ∧
    (from_file (Configuration.initial 1 100).to_file =
        .ok (Configuration.initial 1 100) ∧
      Except.map Configuration.compute_checksum
          (from_file (Configuration.initial 1 100).to_file) =
        .ok (Configuration.initial 1 100).compute_checksum) :=
  ⟨by decide, C2_round_trip (Configuration.initial 1 100) (by decide)⟩

/-- C3: after key normalization, `from_file` pops the `checksum` member and
fails with `KeyError` when it is absent; otherwise it deserializes the
rest, and returns the configuration exactly when the stored checksum is the
string equal to the recomputed digest — on mismatch it fails with an error
carrying both the stored value and the computed digest. -/
theorem C3_checksum_comparison (kvs : List (PyKey × PyVal)) :
    (lookupKey kvs (.str "checksum") = none →
      from_fileBody kvs = .error (.keyError "checksum")) ∧
    (∀ stored config,
      lookupKey kvs (.str "checksum") = some stored →
      deserializeConfiguration (.obj (eraseKey kvs (.str "checksum"))) =
        .ok config →
      (from_fileBody kvs = .ok config ↔
        stored = .str config.compute_checksum) ∧
      (stored ≠ .str config.compute_checksum →
        from_fileBody kvs =
          .error (.checksumMismatch stored config.compute_checksum))) := by
  constructor
  · intro hnone
    rw [from_fileBody, hnone]
  · intro stored config hlk hd
    have hbody : from_fileBody kvs = from_fileChecked stored config := by
      rw [from_fileBody, hlk]
      show (match deserializeConfiguration (.obj (eraseKey kvs (.str "checksum"))) with
            | Except.error fs => Except.error (LoadError.validationFailed fs)
            | Except.ok config2 => from_fileChecked stored config2) = _
      rw [hd]
    constructor
    · rw [hbody]
      constructor
      · intro hok
        exact (from_fileChecked_ok_inv hok).1
      · intro hst
        subst hst
        rw [from_fileChecked, if_pos rfl]
    · intro hne
      rw [hbody]
      cases stored with
      | str s =>
        rw [from_fileChecked, if_neg (fun hcon => hne (by rw [hcon]))]
      | null => rfl
      | bool b => rfl
      | int i => rfl
      | float f => rfl
      | list xs => rfl
      | obj kvs2 => rfl

/-- C3 witness: the normalized pairs of a saved fresh configuration pass
the comparison. -/
theorem C3_checksum_comparison_witness :
    from_fileBody (Configuration.initial 1 100).normPairs =
      .ok (Configuration.initial 1 100) := by
  have h := (C3_checksum_comparison (Configuration.initial 1 100).normPairs).2
    (.str (Configuration.initial 1 100).compute_checksum)
    (Configuration.initial 1 100) rfl (by rfl)
  exact h.1.mpr rfl

/-- C4 (amended): the checksum is the first key of the written file, and
stripping the checksum line recovers the serialized body; the hashed byte
sequence is that body plus one trailing newline — which the written file
does not carry — so the stripped file reproduces the hashed bytes only
after appending a newline. -/
theorem C4_checksum_line (c : Configuration) :
    (∃ rest, c.to_file_text = lbrace :: '\n' ::
      (sp 4 ++ (jsonQuote "checksum" ++ ':' :: ' ' ::
        (jsonQuote c.compute_checksum ++ ',' :: '\n' :: rest)))) ∧
    removeSecondLine c.to_file_text = c.serializedText ∧
    c.compute_checksum =
      sha256Hex (utf8Enc (removeSecondLine c.to_file_text ++ ['\n'])) ∧
    utf8Enc (removeSecondLine c.to_file_text ++ ['\n']) ≠
      utf8Enc (removeSecondLine c.to_file_text) := by
  refine ⟨?_, removeSecondLine_to_file c, ?_, ?_⟩
  · exact ⟨sp 4 ++ membersText 0 (cfgItems c), by rw [to_file_text_objText]; rfl⟩
  · rw [removeSecondLine_to_file c]
    rfl
  · exact utf8Enc_newline_ne _

/-- C4 counterexample: for the fresh configuration, the checksum-stripped
file is not the hashed byte sequence — it lacks the trailing newline. -/
theorem C4_checksum_line_counterexample :
    utf8Enc (removeSecondLine (Configuration.initial 1 100).to_file_text) ≠
      utf8Enc ((Configuration.initial 1 100).serializedText ++ ['\n']) := by
  rw [removeSecondLine_to_file]
  intro h
  exact utf8Enc_newline_ne _ h.symm

/-- C6: when a schema-accepted document yields a configuration with both a
non-checksummed address in `token_addresses` and a token symbol absent from
`token_addresses`, deserialization fails and the reported findings include
the address-format finding and the token-coverage finding together. -/
theorem C6_validator_completeness (v : PyVal) (c : Configuration)
    (p : String × String) (t : String × TokenConfig)
    (hschema : dConfigurationSchema v = .ok c)
    (hp : p ∈ c.token_addresses) (hbad : is_checksum_address p.2 = false)
    (ht : t ∈ c.request_manager.tokens)
    (hmiss : ∀ r ∈ c.token_addresses, r.1 ≠ t.1) :
    ∃ fs, deserializeConfiguration v = .error fs ∧
      (["token_addresses", p.1], "expected a checksum address: " ++ p.2) ∈ fs ∧
      (["token_addresses"], "missing address for token " ++ t.1) ∈ fs := by
  have hmem1 : (["token_addresses", p.1],
      "expected a checksum address: " ++ p.2) ∈ c._check_token_addresses := by
    rw [Configuration._check_token_addresses, List.mem_flatMap]
    refine ⟨p, hp, ?_⟩
    rw [if_neg (by rw [hbad]; simp)]
    exact List.mem_singleton.mpr rfl
  have hmem2 : (["token_addresses"],
      "missing address for token " ++ t.1) ∈ c._check_tokens := by
    rw [Configuration._check_tokens, List.mem_flatMap]
    refine ⟨t, ht, ?_⟩
    rw [if_neg ?cond]
    · exact List.mem_singleton.mpr rfl
    case cond =>
      rw [List.any_eq_true]
      rintro ⟨r, hr, hrt⟩
      exact hmiss r hr (by simpa using hrt)
  have hA : (["token_addresses", p.1],
      "expected a checksum address: " ++ p.2) ∈ c.validationFindings := by
    rw [Configuration.validationFindings]
    exact List.mem_append_left _ hmem1
  have hB : (["token_addresses"],
      "missing address for token " ++ t.1) ∈ c.validationFindings := by
    rw [Configuration.validationFindings]
    exact List.mem_append_right _ hmem2
  refine ⟨c.validationFindings, ?_, hA, hB⟩
  rw [deserializeConfiguration, hschema]
  show (match c.validationFindings with
        | [] => Except.ok c
        | fs => Except.error fs) = .error c.validationFindings
  cases hcv : c.validationFindings with
  | nil => exact absurd (hcv ▸ hA) (List.not_mem_nil _)
  | cons f fs0 => rfl

/-- C6 witness: a concrete document with both violations reports both
findings in one pass. -/
theorem C6_validator_completeness_witness :
    ∃ fs, deserializeConfiguration (.obj c6Cfg.bodyPairs) = .error fs ∧
      (["token_addresses", "TOK"],
        "expected a checksum address: " ++ lowAddr) ∈ fs ∧
      (["token_addresses"], "missing address for token " ++ "X") ∈ fs :=
  C6_validator_completeness (.obj c6Cfg.bodyPairs) c6Cfg ("TOK", lowAddr)
    ("X", ⟨0, 0⟩) rfl (by decide) (by decide) (by decide) (by decide)

/-- C7: `from_file` normalizes every `RequestManager.chains` key by
parsing it as an integer. First, whenever all keys of a chains object
parse, normalization succeeds and every key of the normalized object is an
integer obtained by parsing one of the original string keys. Second, the
saved file of a configuration with chain ID 10 — whose chains key is the
string `"10"` — loads back keyed by the integer 10. Third, wherever it
sits in the object, the first key that fails to parse aborts the load with
an `invalid chain ID` error naming that key; failing keys are constrained
to ASCII text, on which the embedded `int(str)` agrees with Python's
(Python also accepts non-ASCII Unicode digits the embedding does not
model). -/
theorem C7_chain_key_normalization :
    (∀ chainKvs : List (PyKey × PyVal),
      (∀ p ∈ chainKvs, ∃ s i, p.1 = PyKey.str s ∧ pyInt s = some i) →
      ∃ kvs2, normalizeChains chainKvs = .ok kvs2 ∧
        ∀ q ∈ kvs2, ∃ p ∈ chainKvs, ∃ s i,
          p.1 = PyKey.str s ∧ pyInt s = some i ∧ q.1 = PyKey.int i) ∧
    (from_file cfgTen.to_file = .ok cfgTen ∧
      cfgTen.request_manager.chains.map Prod.fst = [10]) ∧
    (∀ (s : String) (v : PyVal) (kvs rmkvs pre rest : List (PyKey × PyVal)),
      lookupKey kvs (.str "RequestManager") = some (.obj rmkvs) →
      lookupKey rmkvs (.str "chains") =
        some (.obj (pre ++ (PyKey.str s, v) :: rest)) →
      (∀ p ∈ pre, ∃ s2 i, p.1 = PyKey.str s2 ∧ pyInt s2 = some i) →
      (∀ ch ∈ s.data, ch.toNat < 128) →
      pyInt s = none →
      from_fileData (.obj kvs) =
        .error (.invalidChainId ("invalid chain ID: " ++ s))) := by
  refine ⟨normalizeChains_all_parse,
    ⟨from_file_to_file cfgTen (by decide), rfl⟩, ?_⟩
  intro s v kvs rmkvs pre rest h1 h2 hpre _hascii hpy
  have hnorm : normalizeChains (pre ++ (PyKey.str s, v) :: rest) = .error s := by
    rw [normalizeChains]
    exact normalizeChainsAcc_first_bad s v rest pre [] hpre hpy
  have hns : normStep kvs = .error (.invalidChainId ("invalid chain ID: " ++ s)) := by
    simp only [normStep, h1, h2, hnorm]
  rw [from_fileData, hns]

/-- C7 witness: a non-numeric chains key, sitting after a parsable key,
fails the load naming the offending key. -/
theorem C7_chain_key_normalization_witness :
    from_fileData (.obj [(PyKey.str "RequestManager",
        PyVal.obj [(PyKey.str "chains",
          PyVal.obj [(PyKey.str "10", PyVal.null),
            (PyKey.str "mainnet", PyVal.null)])])]) =
      .error (.invalidChainId ("invalid chain ID: " ++ "mainnet")) :=
  (C7_chain_key_normalization).2.2 "mainnet" PyVal.null
    [(PyKey.str "RequestManager",
      PyVal.obj [(PyKey.str "chains",
        PyVal.obj [(PyKey.str "10", PyVal.null),
          (PyKey.str "mainnet", PyVal.null)])])]
    [(PyKey.str "chains",
      PyVal.obj [(PyKey.str "10", PyVal.null), (PyKey.str "mainnet", PyVal.null)])]
    [(PyKey.str "10", PyVal.null)] [] rfl rfl
    (by
      intro p hp
      simp only [List.mem_singleton] at hp
      subst hp
      exact ⟨"10", 10, rfl, rfl⟩)
    (by decide) rfl

/-- C8 (amended): a load that succeeds has verified the checksum — the
stored checksum string equals the digest recomputed over the loaded
configuration — so a single-byte mutation is rejected with
`ChecksumMismatch` whenever it changes what the document deserializes to;
a mutation of JSON whitespace, however, leaves the parsed document intact
and reloads successfully. -/
theorem C8_tamper_detection (text : String) (c' : Configuration)
    (h : from_file text = .ok c') :
    ∃ kvs kvs2, json_loads text = some (.obj kvs) ∧ normStep kvs = .ok kvs2 ∧
      lookupKey kvs2 (.str "checksum") = some (.str c'.compute_checksum) ∧
      deserializeConfiguration (.obj (eraseKey kvs2 (.str "checksum"))) =
        .ok c' :=
  from_file_ok_inv h

/-- C8 witness: the inversion at the saved fresh configuration. -/
theorem C8_tamper_detection_witness :
    ∃ kvs kvs2,
      json_loads (Configuration.initial 1 100).to_file = some (.obj kvs) ∧
      normStep kvs = .ok kvs2 ∧
      lookupKey kvs2 (.str "checksum") =
        some (.str (Configuration.initial 1 100).compute_checksum) ∧
      deserializeConfiguration (.obj (eraseKey kvs2 (.str "checksum"))) =
        .ok (Configuration.initial 1 100) :=
  C8_tamper_detection (Configuration.initial 1 100).to_file
    (Configuration.initial 1 100)
    (from_file_to_file (Configuration.initial 1 100) (by decide))

/-- C8 counterexample: mutating byte 86 of the saved fresh configuration —
an indentation space outside the checksum field, turned into a tab —
reloads successfully instead of failing with `ChecksumMismatch`. -/
theorem C8_tamper_detection_counterexample :
    (Configuration.initial 1 100).to_file_text[86]? = some ' ' ∧
    (' ' : Char) ≠ '\t' ∧
    from_file ⟨(Configuration.initial 1 100).to_file_text.set 86 '\t'⟩ =
      .ok (Configuration.initial 1 100) :=
  ⟨rfl, by decide, rfl⟩

/-- C10: the chains keys of a loaded file may be any integers — the saved
file of a configuration whose single chain ID is -5 loads back keyed by the
integer -5 — while the top-level `chain_id` field's schema rejects every
value below its minimum of 1. -/
theorem C10_negative_chain_ids :
    (from_file cfgNeg.to_file = .ok cfgNeg ∧
      cfgNeg.request_manager.chains.map Prod.fst = [-5]) ∧
    (∀ (loc : List String) (i : Int), i < 1 →
      dIntMin loc 1 (.int i) =
        .error [(loc, "less than the minimum " ++ toString (1 : Int))]) := by
  constructor
  · exact ⟨from_file_to_file cfgNeg (by decide), rfl⟩
  · intro loc i hi
    rw [dIntMin, if_pos hi]

/-- C10 witness: chain ID -5 loads; chain_id 0 is rejected. -/
theorem C10_negative_chain_ids_witness :
    dIntMin ["chain_id"] 1 (.int 0) =
      .error [(["chain_id"], "less than the minimum " ++ toString (1 : Int))] :=
  (C10_negative_chain_ids).2 ["chain_id"] 0 (by decide)

end Beamer
